import Mathlib

/-!
Verification of the Rivermind poker backend core: a shallow embedding of
`backend/poker/betting.py` (the `BettingState` state machine),
`backend/poker/engine.py` (the hand-lifecycle `Engine`),
`backend/poker/cards.py` (the deck) and `backend/session_store.py`
(multiplayer table join), together with theorems settling the frozen claims
about chip conservation, fold termination, raise validation, projection
redaction, actor eligibility, step atomicity, join idempotence and deal
determinism.

Python dictionaries are embedded as insertion-ordered association lists,
Python sets as lists used up to membership, machine integers as `Int`
(Python ints are unbounded), and exceptions as `Except String` results.
Methods that in Python mutate `self` and may raise part-way through are
embedded as functions returning the (possibly partially updated) state
together with the error, so that atomicity is a real property and not an
artifact of the embedding.
-/

namespace Rivermind

/-- Seats are stable string ids such as `p1`..`p5`. -/
abbrev Seat := String

/-- Insertion-ordered association list standing for a Python `Dict[str, int]`. -/
abbrev ChipMap := List (Seat × Int)

/-- Value of key `k` in `m` (Python `m[k]`; lookups in the embedded code are
only performed at keys that are present, missing keys read as `0`). -/
def getV (m : ChipMap) (k : Seat) : Int :=
  (m.lookup k).getD 0

/-- Update the value at key `k` if present (Python `m[k] = v` on an existing
key); a missing key is left alone, so the key set never changes. -/
def setV (m : ChipMap) (k : Seat) (v : Int) : ChipMap :=
  m.map (fun kv => if kv.1 = k then (k, v) else kv)

/-- Key list of an association list. -/
def keysOf (m : ChipMap) : List Seat :=
  m.map Prod.fst

/-- Sum of all values of an association list (Python `sum(m.values())`). -/
def sumV (m : ChipMap) : Int :=
  (m.map Prod.snd).sum

/-- Python `set.add`. -/
def setInsert (l : List Seat) (p : Seat) : List Seat :=
  if p ∈ l then l else l ++ [p]

/-- Python `set.discard`. -/
def setRemove (l : List Seat) (p : Seat) : List Seat :=
  l.filter (fun q => q ≠ p)

/-- Python set difference `l - r`. -/
def setDiff (l r : List Seat) : List Seat :=
  l.filter (fun q => ¬ r.contains q)

/-- The action kinds of `backend/schemas.py` (`ActionType`). -/
inductive ActionType where
  | check
  | call
  | fold
  | raise
deriving Repr, DecidableEq

/-- An action: a kind plus the optional raise target (`Action` in
`backend/schemas.py`). -/
structure Action where
  action : ActionType
  amount : Option Int := none
deriving Repr, DecidableEq

/-- A history entry (`ActionRecord`). -/
structure ActionRecord where
  playerId : Seat
  action : Action
deriving Repr, DecidableEq

/-- The `winner` value of a hand: Python stores `None`, the string `"tie"`,
a single seat id, or a list of seat ids in the same field. -/
inductive Winner where
  | null
  | tie
  | single (s : Seat)
  | multi (ws : List Seat)
deriving Repr, DecidableEq

/-- Result record returned by `BettingState.step` (`StepResult`). -/
structure StepResult where
  roundComplete : Bool
  handOver : Bool
  winner : Winner
deriving Repr, DecidableEq

/-- The per-hand betting state machine `BettingState` of
`backend/poker/betting.py`. -/
structure BState where
  players : List Seat := ["p1", "p2"]
  smallBlind : Int := 5
  bigBlind : Int := 10
  startingStack : Int := 1000
  stacks' : ChipMap := []
  contributions : ChipMap := []
  pot : Int := 0
  currentBet : Int := 0
  lastRaiseSize : Int := 0
  currentPlayer : Option Seat := none
  pendingPlayers : List Seat := []
  actionHistory : List ActionRecord := []
  handOver : Bool := false
  winner : Winner := .null
  foldedPlayers : List Seat := []
  allInPlayers : List Seat := []
deriving Repr, DecidableEq

namespace BState

/-- `BettingState.active_players`: seats that have not folded, in seat order. -/
def activePlayers (s : BState) : List Seat :=
  s.players.filter (fun p => ¬ s.foldedPlayers.contains p)

/-- `BettingState.to_call`. -/
def toCall (s : BState) (pid : Seat) : Int :=
  max 0 (s.currentBet - getV s.contributions pid)

/-- `BettingState._min_raise_to` / `min_raise_to`. -/
def minRaiseTo (s : BState) : Int :=
  if s.currentBet = 0 then s.lastRaiseSize else s.currentBet + s.lastRaiseSize

/-- `BettingState.max_raise_to`. -/
def maxRaiseTo (s : BState) (pid : Seat) : Int :=
  getV s.contributions pid + getV s.stacks' pid

/-- `BettingState._can_raise`. -/
def canRaise (s : BState) (pid : Seat) : Prop :=
  getV s.contributions pid + getV s.stacks' pid > s.currentBet

instance (s : BState) (pid : Seat) : Decidable (canRaise s pid) := by
  unfold canRaise; infer_instance

/-- `BettingState.legal_actions`. -/
def legalActions (s : BState) : List ActionType :=
  if s.handOver then []
  else
    match s.currentPlayer with
    | none => []
    | some p =>
      let tc := toCall s p
      let stack := getV s.stacks' p
      [ActionType.fold]
        ++ (if tc = 0 then [ActionType.check]
            else if stack > 0 then [ActionType.call] else [])
        ++ (if stack > tc ∧ canRaise s p then [ActionType.raise] else [])

/-- `BettingState._next_player`: first seat clockwise from `cur` that is
pending and neither folded nor all-in. -/
def nextPlayer (s : BState) (cur : Seat) : Option Seat :=
  if s.players.isEmpty then none
  else
    match s.players.findIdx? (fun q => q == cur) with
    | none => none
    | some start =>
      (List.range s.players.length).findSome? (fun off =>
        let candidate := s.players.getD ((start + off + 1) % s.players.length) ""
        if s.foldedPlayers.contains candidate then none
        else if s.allInPlayers.contains candidate then none
        else if s.pendingPlayers.contains candidate then some candidate
        else none)

/-- `BettingState._post_blind`: commit `min(amount, stack)` chips for `pid`. -/
def postBlind (s : BState) (pid : Seat) (amount : Int) : BState :=
  let blind := min amount (getV s.stacks' pid)
  { s with
    stacks' := setV s.stacks' pid (getV s.stacks' pid - blind)
    contributions := setV s.contributions pid (getV s.contributions pid + blind)
    pot := s.pot + blind }

/-- Maximum contribution among `players` with Python `max(..., default=0)`. -/
def maxContribution (s : BState) : Int :=
  match s.players.map (fun p => getV s.contributions p) with
  | [] => 0
  | x :: xs => xs.foldl max x

/-- Stack table rebuilt at the top of `BettingState.start_hand`: a fresh
table of `starting_stack` per seat when empty, otherwise the existing
entries clamped at zero with unseen seats appended at `starting_stack`. -/
def startHandStacks (s : BState) (players : List Seat) : ChipMap :=
  if s.stacks'.isEmpty then players.map (fun p => (p, s.startingStack))
  else
    let clamped := s.stacks'.map (fun kv => (kv.1, max 0 kv.2))
    clamped ++
      (players.filter (fun p => ¬ (keysOf clamped).contains p)).map
        (fun p => (p, s.startingStack))

/-- `BettingState.start_hand`. -/
def startHand (s : BState) (players : List Seat) (sbPlayer bbPlayer firstToAct : Seat) :
    BState :=
  let newStacks := startHandStacks s players
  let s0 : BState :=
    { s with
      players := players
      stacks' := newStacks
      contributions := (keysOf newStacks).map (fun p => (p, 0))
      pot := 0
      currentBet := 0
      lastRaiseSize := s.bigBlind
      pendingPlayers := []
      actionHistory := []
      handOver := false
      winner := .null
      foldedPlayers := []
      allInPlayers := [] }
  if players.length < 2 then
    { s0 with
      handOver := true
      winner := match players with | [] => .null | p :: _ => .single p
      currentPlayer := none }
  else
    let s1 := postBlind s0 sbPlayer s.smallBlind
    let s2 := postBlind s1 bbPlayer s.bigBlind
    let s3 := { s2 with currentBet := maxContribution s2 }
    let s4 := { s3 with
      allInPlayers := s3.players.filter (fun p => getV s3.stacks' p == 0) }
    let s5 := { s4 with pendingPlayers := setDiff s4.activePlayers s4.allInPlayers }
    let s6 := { s5 with currentPlayer := some firstToAct }
    if s6.allInPlayers.contains firstToAct then
      { s6 with currentPlayer := nextPlayer s6 firstToAct }
    else s6

/-- `BettingState.start_new_round`. -/
def startNewRound (s : BState) (firstToAct : Seat) : BState :=
  { s with
    contributions := s.players.map (fun p => (p, 0))
    currentBet := 0
    lastRaiseSize := s.bigBlind
    pendingPlayers := setDiff s.activePlayers s.allInPlayers
    currentPlayer := some firstToAct }

/-- `BettingState._apply_chips`; fails (without mutating) when the amount
exceeds the stack. -/
def applyChips (s : BState) (pid : Seat) (amount : Int) : Except String BState :=
  if amount > getV s.stacks' pid then .error "Not enough chips to call"
  else
    .ok { s with
      stacks' := setV s.stacks' pid (getV s.stacks' pid - amount)
      contributions := setV s.contributions pid (getV s.contributions pid + amount)
      pot := s.pot + amount }

/-- `BettingState._apply_raise`. Returns the (possibly partially updated)
state and an error when the raise is rejected, mirroring the order in which
the Python method validates and then mutates. -/
def applyRaise (s : BState) (pid : Seat) (raiseTo : Int) : BState × Option String :=
  if raiseTo ≤ s.currentBet then (s, some "Raise must increase the current bet")
  else
    let playerStack := getV s.stacks' pid
    let contributed := getV s.contributions pid
    let required := raiseTo - contributed
    if required > playerStack then (s, some "Raise exceeds stack")
    else
      let minR := s.minRaiseTo
      if raiseTo < minR ∧ ¬ required = playerStack then (s, some "Raise below minimum")
      else
        let raiseSize := raiseTo - s.currentBet
        let s1 :=
          if required = playerStack ∧ raiseTo < minR then s
          else { s with lastRaiseSize := raiseSize }
        let s2 := { s1 with currentBet := raiseTo }
        match applyChips s2 pid required with
        | .error e => (s2, some e)
        | .ok s3 =>
          let s4 :=
            if getV s3.stacks' pid = 0 then
              { s3 with allInPlayers := setInsert s3.allInPlayers pid }
            else s3
          ({ s4 with
             pendingPlayers := setDiff (setDiff s4.activePlayers [pid]) s4.allInPlayers },
           none)

/-- `BettingState._record_action`. -/
def recordAction (s : BState) (pid : Seat) (a : Action) : BState :=
  { s with actionHistory := s.actionHistory ++ [⟨pid, a⟩] }

/-- `BettingState._round_complete`. -/
def roundCompleteB (s : BState) : Bool :=
  s.pendingPlayers.isEmpty

/-- Common tail of `BettingState.step` (advancing `current_player` and
building the result record). -/
def finishStep (s : BState) (pid : Seat) (rc : Bool) : BState × Except String StepResult :=
  if s.handOver = false ∧ rc = false then
    let np := nextPlayer s pid
    let s1 := { s with currentPlayer := np }
    let rc1 := if np = none then true else rc
    (s1, .ok ⟨rc1, s1.handOver, s1.winner⟩)
  else if rc then
    let s1 := { s with currentPlayer := none }
    (s1, .ok ⟨rc, s1.handOver, s1.winner⟩)
  else (s, .ok ⟨rc, s.handOver, s.winner⟩)

/-- `BettingState.step`. Returns the next state together with the result or
the raised error; on error the state component is the state as the Python
object would be left (its mutations up to the raise). -/
def step (s : BState) (a : Action) (pid : Seat) : BState × Except String StepResult :=
  if s.handOver then (s, .error "Hand is over")
  else if s.currentPlayer ≠ some pid then (s, .error "Not this players turn")
  else if s.foldedPlayers.contains pid then (s, .error "Player has already folded")
  else
    let tc := s.toCall pid
    match a.action with
    | .fold =>
      let s1 := recordAction s pid a
      let s2 := { s1 with
        foldedPlayers := setInsert s1.foldedPlayers pid
        pendingPlayers := setRemove s1.pendingPlayers pid }
      let active := s2.activePlayers
      if active.length = 1 then
        let s3 := { s2 with
          handOver := true
          winner := match active with | w :: _ => .single w | [] => s2.winner
          currentPlayer := none }
        (s3, .ok ⟨false, true, s3.winner⟩)
      else
        finishStep s2 pid (roundCompleteB s2)
    | .check =>
      if tc ≠ 0 then (s, .error "Cannot check when facing a bet")
      else
        let s1 := recordAction s pid a
        let s2 := { s1 with pendingPlayers := setRemove s1.pendingPlayers pid }
        finishStep s2 pid (roundCompleteB s2)
    | .call =>
      if tc = 0 then (s, .error "Cannot call when there is no bet")
      else
        let s1 := recordAction s pid a
        let callAmount := min tc (getV s1.stacks' pid)
        match applyChips s1 pid callAmount with
        | .error e => (s1, .error e)
        | .ok s2 =>
          let s3 :=
            if getV s2.stacks' pid = 0 then
              { s2 with allInPlayers := setInsert s2.allInPlayers pid }
            else s2
          let s4 := { s3 with pendingPlayers := setRemove s3.pendingPlayers pid }
          finishStep s4 pid (roundCompleteB s4)
    | .raise =>
      match a.amount with
      | none => (s, .error "amount is required for raise")
      | some amt =>
        match applyRaise s pid amt with
        | (s1, some e) => (s1, .error e)
        | (s1, none) =>
          let s2 := recordAction s1 pid a
          finishStep s2 pid false

/-- Winner list used by `BettingState.payout`: `None` and `"tie"` pay the
active players, a single seat pays that seat, a list pays the list. -/
def payoutWinners (s : BState) (w : Winner) : List Seat :=
  match w with
  | .null => s.activePlayers
  | .tie => s.activePlayers
  | .single x => [x]
  | .multi ws => ws

/-- `BettingState.payout`: split the pot among the winners, remainder to
`remainderTo` (or the first winner); fails only on an empty winner list
(Python divides by zero there, before mutating anything). -/
def payout (s : BState) (w : Winner) (remainderTo : Option Seat) :
    Except String BState :=
  let winners := payoutWinners s w
  if winners.isEmpty then .error "integer division or modulo by zero"
  else
    let split := s.pot.ediv winners.length
    let remainder := s.pot.emod winners.length
    let stacks1 := winners.foldl (fun m p => setV m p (getV m p + split)) s.stacks'
    let stacks2 :=
      if remainder ≠ 0 then
        let recipient := remainderTo.getD (winners.getD 0 "")
        setV stacks1 recipient (getV stacks1 recipient + remainder)
      else stacks1
    .ok { s with stacks' := stacks2, pot := 0, handOver := true, winner := w }

end BState

/-- Card ranks of `backend/poker/cards.py` (`RANKS`). -/
def RANKS : List String := ["A", "K", "Q", "J", "T", "9", "8", "7", "6", "5", "4", "3", "2"]

/-- Card suits (`SUITS`). -/
def SUITS : List String := ["s", "h", "d", "c"]

/-- `build_deck`: the 52 cards in rank-major order. -/
def buildDeck : List String :=
  (RANKS.map (fun r => SUITS.map (fun su => r ++ su))).flatten

/-- `Deck.deal`: take `count` cards off the top, failing when the deck is
too short (the `count < 0` branch cannot arise with `Nat`). -/
def dealCards (deck : List String) (count : Nat) : Except String (List String × List String) :=
  if count > deck.length then .error "not enough cards to deal"
  else .ok (deck.take count, deck.drop count)

/-- The streets (`Street` in `backend/schemas.py`). -/
inductive Street where
  | preflop
  | flop
  | turn
  | river
  | showdown
deriving Repr, DecidableEq

/-- Event kinds (`EventType`); the event payload dictionaries carry only
derived display data and are not needed by any claim, so events are embedded
by their kind. -/
inductive EventType where
  | dealHole
  | dealFlop
  | dealTurn
  | dealRiver
  | showdown
  | handEnd
  | newHand
  | tableEnd
deriving Repr, DecidableEq

/-- The hand-lifecycle `Engine` of `backend/poker/engine.py`. `rngState`
stands for the `random.Random` instance `_rng`: `new_hand` replaces it by
`random.Random(seed)`, embedded as storing the seed. `startingStacksAtHand`
is the `_starting_stacks` snapshot. -/
structure Eng where
  deck : List String := buildDeck
  board : List String := []
  holeCards : List (Seat × List String) := []
  street : Street := .preflop
  betting : BState := {}
  players : List Seat := ["p1", "p2", "p3", "p4", "p5"]
  buttonIndex : Nat := 0
  buttonPlayer : Seat := "p1"
  sbPlayer : Seat := "p1"
  bbPlayer : Seat := "p2"
  pendingEvents : List EventType := []
  rngState : Int := 0
  startingStacksAtHand : ChipMap := []
deriving Repr, DecidableEq

namespace Eng

/-- `Engine._eligible_players_for_hand`. -/
def eligiblePlayersForHand (e : Eng) : List Seat :=
  if e.betting.stacks'.isEmpty then e.players
  else
    e.players.filter
      (fun p => ((e.betting.stacks'.lookup p).getD e.betting.startingStack) > 0)

/-- `Engine._next_eligible_player_from_index`. -/
def nextEligibleFromIndex (e : Eng) (eligible : List Seat) (startIndex : Nat) :
    Option Seat :=
  if eligible.isEmpty then none
  else
    (List.range e.players.length).findSome? (fun off =>
      let candidate := e.players.getD ((startIndex + off) % e.players.length) ""
      if eligible.contains candidate then some candidate else none)

/-- `Engine.new_hand`, parametrised by the deterministic shuffle function
that stands for `random.Random(seed).shuffle` (the Mersenne-Twister
permutation itself is external to the embedding; all that matters is that it
is a function of the seed and the card list alone). The claim-relevant
`seed` is the integer case of `Optional[int]`. -/
def newHand (shuffleFn : Int → List String → List String) (seed : Int)
    (e : Eng) (rotateButton : Bool) : Except String Eng :=
  if e.players.length < 2 ∨ e.players.length > 5 then
    .error "Engine supports between 2 and 5 players"
  else
    let bi0 := if rotateButton then (e.buttonIndex + 1) % e.players.length else e.buttonIndex
    let buttonIndex := bi0 % e.players.length
    let hp0 := eligiblePlayersForHand e
    let handPlayers := if hp0.isEmpty then e.players else hp0
    let buttonPlayer :=
      (nextEligibleFromIndex e handPlayers buttonIndex).getD (handPlayers.getD 0 "")
    let buttonHandIndex := (handPlayers.findIdx? (fun q => q == buttonPlayer)).getD 0
    let n := handPlayers.length
    let sbIndex := if n = 2 then buttonHandIndex else (buttonHandIndex + 1) % n
    let bbIndex := if n = 2 then (buttonHandIndex + 1) % n else (buttonHandIndex + 2) % n
    let firstToAct :=
      if n = 2 then handPlayers.getD sbIndex ""
      else handPlayers.getD ((bbIndex + 1) % n) ""
    let deck0 := shuffleFn seed buildDeck
    let dealt :=
      e.players.foldl
        (fun (acc : List (Seat × List String) × List String) p =>
          if handPlayers.contains p then
            (acc.1 ++ [(p, acc.2.take 2)], acc.2.drop 2)
          else (acc.1 ++ [(p, [])], acc.2))
        ([], deck0)
    let betting :=
      e.betting.startHand handPlayers (handPlayers.getD sbIndex "")
        (handPlayers.getD bbIndex "") firstToAct
    .ok { e with
      buttonIndex := buttonIndex
      buttonPlayer := buttonPlayer
      sbPlayer := handPlayers.getD sbIndex ""
      bbPlayer := handPlayers.getD bbIndex ""
      rngState := seed
      deck := dealt.2
      board := []
      street := .preflop
      holeCards := dealt.1
      betting := betting
      startingStacksAtHand := betting.stacks'
      pendingEvents := e.pendingEvents ++ [.dealHole] }

/-- `Engine.deal_flop`. -/
def dealFlop (e : Eng) : Except String Eng :=
  match dealCards e.deck 3 with
  | .error err => .error err
  | .ok (dealt, rest) =>
    .ok { e with
      deck := rest
      board := e.board ++ dealt
      street := .flop
      pendingEvents := e.pendingEvents ++ [.dealFlop] }

/-- `Engine.deal_turn`. -/
def dealTurn (e : Eng) : Except String Eng :=
  match dealCards e.deck 1 with
  | .error err => .error err
  | .ok (dealt, rest) =>
    .ok { e with
      deck := rest
      board := e.board ++ dealt
      street := .turn
      pendingEvents := e.pendingEvents ++ [.dealTurn] }

/-- `Engine.deal_river`. -/
def dealRiver (e : Eng) : Except String Eng :=
  match dealCards e.deck 1 with
  | .error err => .error err
  | .ok (dealt, rest) =>
    .ok { e with
      deck := rest
      board := e.board ++ dealt
      street := .river
      pendingEvents := e.pendingEvents ++ [.dealRiver] }

/-- `Engine._first_to_act_postflop`. -/
def firstToActPostflop (e : Eng) : Seat :=
  let playersInHand := if e.betting.players.isEmpty then e.players else e.betting.players
  if playersInHand.isEmpty then e.buttonPlayer
  else
    let startIndex :=
      match playersInHand.findIdx? (fun q => q == e.buttonPlayer) with
      | some i => (i + 1) % playersInHand.length
      | none => 0
    match
      (List.range playersInHand.length).findSome? (fun off =>
        let candidate := playersInHand.getD ((startIndex + off) % playersInHand.length) ""
        if e.betting.foldedPlayers.contains candidate then none
        else if e.betting.allInPlayers.contains candidate then none
        else some candidate)
    with
    | some c => c
    | none => playersInHand.getD startIndex ""

/-- `Engine._end_hand_by_fold`: pay the pot to the fold winner (remainder to
the button) and mark showdown. -/
def endHandByFold (e : Eng) (w : Winner) : Except String Eng :=
  match e.betting.payout w (some e.buttonPlayer) with
  | .error err => .error err
  | .ok b =>
    .ok { e with
      betting := b
      street := .showdown
      pendingEvents := e.pendingEvents ++ [.handEnd] }

/-- `Engine._resolve_showdown`, parametrised by the external 7-card hand
evaluator `evaluate_hand` (lower score is better). -/
def resolveShowdown (evalHand : List String → List String → Int) (e : Eng) :
    Except String Eng :=
  let active := e.betting.activePlayers
  let scores := active.map (fun p => (p, evalHand ((e.holeCards.lookup p).getD []) e.board))
  match (scores.map Prod.snd).min? with
  | none => .error "min() arg is an empty sequence"
  | some best =>
    let winners := (scores.filter (fun ps => ps.2 == best)).map Prod.fst
    let w : Winner := match winners with
      | [x] => .single x
      | _ => .multi winners
    match e.betting.payout w (some e.buttonPlayer) with
    | .error err => .error err
    | .ok b =>
      .ok { e with
        betting := b
        pendingEvents := e.pendingEvents ++ [.handEnd] }

/-- `Engine.step`: delegate to `BettingState.step`, then end the hand on a
fold-out, or advance the street when the round completed. On an error the
engine is returned as the Python object would be left. -/
def step (evalHand : List String → List String → Int) (e : Eng) (a : Action)
    (pid : Seat) : Eng × Except String StepResult :=
  let br := e.betting.step a pid
  let e1 := { e with betting := br.1 }
  match br.2 with
  | .error err => (e1, .error err)
  | .ok r =>
    if r.handOver then
      match endHandByFold e1 r.winner with
      | .error err => (e1, .error err)
      | .ok e2 => (e2, .ok r)
    else if r.roundComplete then
      match e1.street with
      | .preflop =>
        match dealFlop e1 with
        | .error err => (e1, .error err)
        | .ok e2 =>
          ({ e2 with betting := e2.betting.startNewRound (firstToActPostflop e2) }, .ok r)
      | .flop =>
        match dealTurn e1 with
        | .error err => (e1, .error err)
        | .ok e2 =>
          ({ e2 with betting := e2.betting.startNewRound (firstToActPostflop e2) }, .ok r)
      | .turn =>
        match dealRiver e1 with
        | .error err => (e1, .error err)
        | .ok e2 =>
          ({ e2 with betting := e2.betting.startNewRound (firstToActPostflop e2) }, .ok r)
      | .river =>
        match resolveShowdown evalHand e1 with
        | .error err => (e1, .error err)
        | .ok e2 => (e2, .ok r)
      | .showdown => (e1, .ok r)
    else (e1, .ok r)

end Eng

/-- Lexicographic code-point comparison of strings as char lists (the order
Python `sorted` uses on `str`); written structurally so it evaluates. -/
def charListLe : List Char → List Char → Bool
  | [], _ => true
  | _ :: _, [] => false
  | a :: as, b :: bs => if a < b then true else if b < a then false else charListLe as bs

/-- Insert into a sorted list (helper for `pySorted`). -/
def insertSorted (x : Seat) : List Seat → List Seat
  | [] => [x]
  | y :: ys => if charListLe x.data y.data then x :: y :: ys else y :: insertSorted x ys

/-- Python `sorted` on a list of seat ids. -/
def pySorted : List Seat → List Seat
  | [] => []
  | x :: xs => insertSorted x (pySorted xs)

/-- Python slice `l[-limit:]` for `limit ≥ 0` (note `l[-0:]` is the whole
list). -/
def takeLast (limit : Nat) (l : List ActionRecord) : List ActionRecord :=
  if limit = 0 then l else l.drop (l.length - limit)

/-- The per-viewer projection `GameStatePublic` built by
`Engine.to_public_state`. The `hand_strength_label` / `hand_strength_pct` /
`hand_category_probs` annotation fields are produced by the Monte-Carlo
estimator, which the spec places outside the core (they are derived from the
viewer's own cards only); they are not part of the embedding. -/
structure PublicState where
  sessionId : Option String
  street : Street
  pot : Int
  communityCards : List String
  hand : Option (List String)
  revealedHands : Option (List (Seat × List String))
  foldedPlayers : List Seat
  stacks' : ChipMap
  bets : ChipMap
  buttonPlayer : Seat
  smallBlindPlayer : Seat
  bigBlindPlayer : Seat
  currentPlayer : Option Seat
  legalActions : List ActionType
  toCall : Option Int
  minRaiseTo : Option Int
  maxRaiseTo : Option Int
  actionHistory : List ActionRecord
deriving Repr, DecidableEq

/-- `Engine.to_public_state`. -/
def Eng.toPublicState (e : Eng) (viewer : Option Seat) (historyLimit : Nat)
    (sessionId : Option String) : PublicState :=
  let playerHand :=
    match viewer with
    | some v => e.holeCards.lookup v
    | none => none
  let cp := e.betting.currentPlayer
  let revealed :=
    if e.street = .showdown ∨ e.betting.handOver then
      some (e.holeCards.filter (fun pc => pc.2.length == 2))
    else none
  { sessionId := sessionId
    street := e.street
    pot := e.betting.pot
    communityCards := e.board
    hand := playerHand
    revealedHands := revealed
    foldedPlayers := pySorted e.betting.foldedPlayers
    stacks' := e.betting.stacks'
    bets := e.betting.contributions
    buttonPlayer := e.buttonPlayer
    smallBlindPlayer := e.sbPlayer
    bigBlindPlayer := e.bbPlayer
    currentPlayer := cp
    legalActions := e.betting.legalActions
    toCall := match cp with | some p => some (e.betting.toCall p) | none => none
    minRaiseTo := match cp with | some _ => some e.betting.minRaiseTo | none => none
    maxRaiseTo := match cp with | some p => some (e.betting.maxRaiseTo p) | none => none
    actionHistory := takeLast historyLimit e.betting.actionHistory }

/-- The fixed seat order `SEAT_ORDER` of `backend/session_store.py`. -/
def SEAT_ORDER : List Seat := ["p1", "p2", "p3", "p4", "p5"]

/-- The per-table `SessionData` fields read or written by the join protocol
(`session_id`, `mode`, `host_player_id`, `started`, `joined_players`,
`seat_owners`, `table_ended`); the engine, socket registry, winner list and
wall-clock timestamps are not touched by `join_multiplayer_table` and the
timestamps are outside a shallow embedding. `seatOwners` is the
insertion-ordered `seat → user_key` dictionary. -/
structure SessionData where
  sessionId : String
  mode : String := "single"
  hostPlayerId : String := "p1"
  started : Bool := false
  joinedPlayers : List Seat := []
  seatOwners : List (Seat × String) := []
  tableEnded : Bool := false
deriving Repr, DecidableEq

/-- Python string truthiness of an `Optional[str]` (`if user_key:`). -/
def optTruthy : Option String → Bool
  | none => false
  | some s => ¬ s.isEmpty

/-- Python dict assignment `m[k] = v` for the `seat_owners` dictionary. -/
def dictSet (m : List (Seat × String)) (k : Seat) (v : String) : List (Seat × String) :=
  if (m.map Prod.fst).contains k then
    m.map (fun kv => if kv.1 = k then (k, v) else kv)
  else m ++ [(k, v)]

/-- `SessionStore.join_multiplayer_table`, for a session that exists in the
store (the store-level `Table not found` lookup failure is independent of
the session argument). Returns the updated session and the seat. -/
def joinMultiplayerTable (sess : SessionData) (userKey : Option String) :
    Except String (SessionData × Seat) :=
  if sess.mode ≠ "multi" then .error "Not a multiplayer table"
  else if sess.tableEnded then .error "Table has ended"
  else
    let owned :=
      if optTruthy userKey then
        sess.seatOwners.find? (fun so => so.2 == userKey.getD "")
      else none
    match owned with
    | some so => .ok (sess, so.1)
    | none =>
      match SEAT_ORDER.find? (fun seat => ¬ sess.joinedPlayers.contains seat) with
      | some seat =>
        .ok ({ sess with
                joinedPlayers := sess.joinedPlayers ++ [seat]
                seatOwners :=
                  if optTruthy userKey then dictSet sess.seatOwners seat (userKey.getD "")
                  else sess.seatOwners },
             seat)
      | none => .error "Table is full"

/-! ### Association-list lemmas -/

theorem keysOf_setV (m : ChipMap) (k : Seat) (v : Int) :
    keysOf (setV m k v) = keysOf m := by
  induction m with
  | nil => rfl
  | cons kv t ih =>
    simp only [setV, keysOf, List.map_cons] at *
    by_cases h : kv.1 = k
    · simp [h, ih]
    · simp [h, ih]

theorem setV_of_not_mem (m : ChipMap) (k : Seat) (v : Int) (h : k ∉ keysOf m) :
    setV m k v = m := by
  induction m with
  | nil => rfl
  | cons kv t ih =>
    simp only [keysOf, List.map_cons, List.mem_cons, not_or] at h
    simp only [setV, List.map_cons]
    rw [if_neg (fun hh => h.1 hh.symm)]
    have := ih (by simpa [keysOf] using h.2)
    simpa [setV] using this

theorem getV_cons (a : Seat) (b : Int) (t : ChipMap) (k : Seat) :
    getV ((a, b) :: t) k = if k = a then b else getV t k := by
  by_cases h : k = a
  · simp [getV, List.lookup, h]
  · have hb : (k == a) = false := by simp [h]
    simp [getV, List.lookup, hb, h]

theorem getV_setV_self (m : ChipMap) (k : Seat) (v : Int) (h : k ∈ keysOf m) :
    getV (setV m k v) k = v := by
  induction m with
  | nil => simp [keysOf] at h
  | cons kv t ih =>
    obtain ⟨a, b⟩ := kv
    simp only [keysOf, List.map_cons, List.mem_cons] at h
    simp only [setV, List.map_cons]
    by_cases hak : a = k
    · simp only [hak, if_pos rfl]
      rw [getV_cons]
      simp
    · rw [if_neg (by simpa using hak)]
      rw [getV_cons]
      rw [if_neg (fun hh => hak hh.symm)]
      exact (by simpa [setV] using ih (h.resolve_left (fun hh => hak hh.symm)))

theorem getV_setV_ne (m : ChipMap) (k k' : Seat) (v : Int) (h : k' ≠ k) :
    getV (setV m k v) k' = getV m k' := by
  induction m with
  | nil => rfl
  | cons kv t ih =>
    obtain ⟨a, b⟩ := kv
    simp only [setV, List.map_cons]
    by_cases hak : a = k
    · simp only [hak, if_pos rfl]
      rw [getV_cons, getV_cons, if_neg h]
      rw [if_neg (hak ▸ h)]
      simpa [setV] using ih
    · rw [if_neg (by simpa using hak)]
      rw [getV_cons, getV_cons]
      by_cases hk'a : k' = a
      · simp [hk'a]
      · rw [if_neg hk'a, if_neg hk'a]
        simpa [setV] using ih

theorem getV_of_not_mem (m : ChipMap) (k : Seat) (h : k ∉ keysOf m) :
    getV m k = 0 := by
  induction m with
  | nil => rfl
  | cons kv t ih =>
    obtain ⟨a, b⟩ := kv
    simp only [keysOf, List.map_cons, List.mem_cons, not_or] at h
    rw [getV_cons, if_neg h.1]
    exact ih (by simpa [keysOf] using h.2)

theorem sumV_setV (m : ChipMap) (k : Seat) (v : Int)
    (hnd : (keysOf m).Nodup) (hmem : k ∈ keysOf m) :
    sumV (setV m k v) = sumV m + v - getV m k := by
  induction m with
  | nil => simp [keysOf] at hmem
  | cons kv t ih =>
    obtain ⟨a, b⟩ := kv
    simp only [keysOf, List.map_cons, List.nodup_cons] at hnd
    simp only [keysOf, List.map_cons, List.mem_cons] at hmem
    simp only [setV, List.map_cons]
    by_cases hak : a = k
    · simp only [hak, if_pos rfl]
      have hknt : k ∉ keysOf t := hak ▸ hnd.1
      rw [show (t.map fun kv => if kv.1 = k then (k, v) else kv) = setV t k v from rfl,
        setV_of_not_mem t k v hknt]
      rw [getV_cons, if_pos rfl]
      simp [sumV]
      ring
    · rw [if_neg (by simpa using hak)]
      have hkt : k ∈ keysOf t := hmem.resolve_left (fun hh => hak hh.symm)
      have hih := ih hnd.2 hkt
      rw [getV_cons, if_neg (fun hh => hak hh.symm)]
      simp only [sumV, setV, List.map_cons, List.sum_cons] at hih ⊢
      omega

/-! ### Betting-state machinery lemmas -/

/-- Total chips in play at the betting level: all stacks plus the pot. -/
def totalChips (s : BState) : Int :=
  sumV s.stacks' + s.pot

theorem mem_getD {l : List Seat} {n : Nat} (h : n < l.length) : l.getD n "" ∈ l := by
  rw [List.getD_eq_getElem l "" h]
  exact l.getElem_mem h

theorem contains_eq_true_iff {l : List Seat} {a : Seat} : l.contains a = true ↔ a ∈ l := by
  simp

theorem contains_eq_false_iff {l : List Seat} {a : Seat} : l.contains a = false ↔ a ∉ l := by
  simp

namespace BState

theorem nextPlayer_eq_some {s : BState} {cur c : Seat}
    (h : s.nextPlayer cur = some c) :
    c ∈ s.players ∧ c ∉ s.foldedPlayers ∧ c ∉ s.allInPlayers ∧ c ∈ s.pendingPlayers := by
  unfold nextPlayer at h
  split at h
  · exact absurd h (by simp)
  · next hne =>
    split at h
    · exact absurd h (by simp)
    · next start hidx =>
      obtain ⟨off, hoff, hf⟩ := List.exists_of_findSome?_eq_some h
      simp only at hf
      have hlen : 0 < s.players.length := by
        cases hp : s.players with
        | nil => rw [hp] at hne; simp at hne
        | cons x t => simp [hp]
      have hmod : (start + off + 1) % s.players.length < s.players.length :=
        Nat.mod_lt _ hlen
      split at hf
      · exact absurd hf (by simp)
      · split at hf
        · exact absurd hf (by simp)
        · split at hf
          · next hfold hallin hpend =>
            obtain rfl : s.players.getD ((start + off + 1) % s.players.length) "" = c := by
              simpa using hf
            refine ⟨mem_getD hmod, ?_, ?_, ?_⟩
            · simpa using hfold
            · simpa using hallin
            · simpa using hpend
          · exact absurd hf (by simp)

theorem applyChips_ok {s : BState} {pid : Seat} {amt : Int} {s2 : BState}
    (h : s.applyChips pid amt = .ok s2) :
    amt ≤ getV s.stacks' pid ∧
    s2 = { s with
      stacks' := setV s.stacks' pid (getV s.stacks' pid - amt)
      contributions := setV s.contributions pid (getV s.contributions pid + amt)
      pot := s.pot + amt } := by
  unfold applyChips at h
  split at h
  · exact absurd h (by simp)
  · next hle =>
    refine ⟨by omega, ?_⟩
    simpa using h.symm

theorem applyChips_error_iff {s : BState} {pid : Seat} {amt : Int} :
    (∃ e, s.applyChips pid amt = .error e) ↔ amt > getV s.stacks' pid := by
  unfold applyChips
  split
  · next hgt => exact ⟨fun _ => hgt, fun _ => ⟨_, rfl⟩⟩
  · next hle => simp at hle ⊢; omega

theorem finishStep_fst (s : BState) (pid : Seat) (rc : Bool) :
    (finishStep s pid rc).1 =
      { s with currentPlayer :=
          if s.handOver = false ∧ rc = false then s.nextPlayer pid
          else if rc then none else s.currentPlayer } := by
  unfold finishStep
  by_cases h1 : s.handOver = false ∧ rc = false
  · rw [if_pos h1, if_pos h1]
  · rw [if_neg h1, if_neg h1]
    by_cases h2 : rc = true
    · rw [if_pos h2, if_pos h2]
    · rw [if_neg h2, if_neg h2]

theorem finishStep_snd (s : BState) (pid : Seat) (rc : Bool) :
    ∃ rc2, (finishStep s pid rc).2 = .ok ⟨rc2, s.handOver, s.winner⟩ := by
  unfold finishStep
  by_cases h1 : s.handOver = false ∧ rc = false
  · rw [if_pos h1]
    exact ⟨_, rfl⟩
  · rw [if_neg h1]
    by_cases h2 : rc = true
    · rw [if_pos h2]
      exact ⟨_, rfl⟩
    · rw [if_neg h2]
      exact ⟨_, rfl⟩

theorem applyRaise_ok {s : BState} {pid : Seat} {amt : Int} {s1 : BState}
    (h : s.applyRaise pid amt = (s1, none)) :
    s.currentBet < amt ∧
    amt - getV s.contributions pid ≤ getV s.stacks' pid ∧
    (amt < s.minRaiseTo →
      amt - getV s.contributions pid = getV s.stacks' pid ∧
      s1.lastRaiseSize = s.lastRaiseSize) ∧
    (¬ amt < s.minRaiseTo → s1.lastRaiseSize = amt - s.currentBet) ∧
    s1.currentBet = amt ∧
    s1.players = s.players ∧
    s1.foldedPlayers = s.foldedPlayers ∧
    s1.handOver = s.handOver ∧
    s1.winner = s.winner ∧
    s1.currentPlayer = s.currentPlayer ∧
    s1.actionHistory = s.actionHistory ∧
    s1.smallBlind = s.smallBlind ∧ s1.bigBlind = s.bigBlind ∧
    keysOf s1.stacks' = keysOf s.stacks' ∧
    s1.pendingPlayers = setDiff (setDiff s.activePlayers [pid]) s1.allInPlayers ∧
    (s1.allInPlayers = s.allInPlayers ∨ s1.allInPlayers = setInsert s.allInPlayers pid) ∧
    (pid ∈ keysOf s.stacks' → (keysOf s.stacks').Nodup → totalChips s1 = totalChips s) := by
  simp only [applyRaise] at h
  split at h
  · simp at h
  next hgt =>
  split at h
  · simp at h
  next hreq =>
  split at h
  · simp at h
  next hmin =>
  split at h
  · simp at h
  next s3 heq =>
  injection h with h1 h2
  subst h1
  have hgt' : s.currentBet < amt := by omega
  have hreq' : amt - getV s.contributions pid ≤ getV s.stacks' pid := by omega
  by_cases hc : amt - getV s.contributions pid = getV s.stacks' pid ∧ amt < s.minRaiseTo
  · rw [if_pos hc] at heq
    obtain ⟨hle3, rfl⟩ := applyChips_ok heq
    split
    · refine ⟨hgt', hreq', fun _ => ⟨hc.1, by simp⟩, fun hnlt => absurd hc.2 hnlt,
        by simp, by simp, by simp, by simp, by simp, by simp, by simp,
        by simp, by simp, by simp [keysOf_setV], by simp [activePlayers], Or.inr (by simp), ?_⟩
      intro hmem hnd
      simp only [totalChips]
      simp only [sumV_setV _ _ _ hnd hmem]
      simp only [getV, List.lookup]
      omega
    · refine ⟨hgt', hreq', fun _ => ⟨hc.1, by simp⟩, fun hnlt => absurd hc.2 hnlt,
        by simp, by simp, by simp, by simp, by simp, by simp, by simp,
        by simp, by simp, by simp [keysOf_setV], by simp [activePlayers], Or.inl (by simp), ?_⟩
      intro hmem hnd
      simp only [totalChips]
      simp only [sumV_setV _ _ _ hnd hmem]
      omega
  · rw [if_neg hc] at heq
    obtain ⟨hle3, rfl⟩ := applyChips_ok heq
    have hnlt : ¬ amt < s.minRaiseTo := by
      intro hlt
      rcases not_and_or.mp hmin with hm | hm
      · exact hm hlt
      · exact hc ⟨not_not.mp hm, hlt⟩
    split
    · refine ⟨hgt', hreq', fun hlt => absurd hlt hnlt, fun _ => by simp,
        by simp, by simp, by simp, by simp, by simp, by simp, by simp,
        by simp, by simp, by simp [keysOf_setV], by simp [activePlayers], Or.inr (by simp), ?_⟩
      intro hmem hnd
      simp only [totalChips]
      simp only [sumV_setV _ _ _ hnd hmem]
      omega
    · refine ⟨hgt', hreq', fun hlt => absurd hlt hnlt, fun _ => by simp,
        by simp, by simp, by simp, by simp, by simp, by simp, by simp,
        by simp, by simp, by simp [keysOf_setV], by simp [activePlayers], Or.inl (by simp), ?_⟩
      intro hmem hnd
      simp only [totalChips]
      simp only [sumV_setV _ _ _ hnd hmem]
      omega

theorem finishStep_rc_none {s0 : BState} {pid : Seat} {rc : Bool} {s2 : BState}
    {r : StepResult} (h : finishStep s0 pid rc = (s2, .ok r))
    (hrc : r.roundComplete = true) : s2.currentPlayer = none := by
  unfold finishStep at h
  by_cases h1 : s0.handOver = false ∧ rc = false
  · rw [if_pos h1] at h
    injection h with ha hb
    injection hb with hb
    subst ha
    subst hb
    simp only [] at hrc ⊢
    split at hrc
    · next hnp => simpa using hnp
    · rw [h1.2] at hrc
      cases hrc
  · rw [if_neg h1] at h
    by_cases h2 : rc = true
    · rw [if_pos h2] at h
      injection h with ha hb
      subst ha
      rfl
    · rw [if_neg h2] at h
      injection h with ha hb
      injection hb with hb
      subst hb
      rw [← hrc] at h2
      simp at h2

theorem recordAction_fields (s : BState) (pid : Seat) (a : Action) :
    (s.recordAction pid a).players = s.players ∧
    (s.recordAction pid a).stacks' = s.stacks' ∧
    (s.recordAction pid a).pot = s.pot := by
  simp [recordAction]

theorem finishStep_ok {s0 : BState} {pid : Seat} {rc : Bool} {s2 : BState}
    {r : StepResult} (h : finishStep s0 pid rc = (s2, .ok r)) :
    s2.players = s0.players ∧ s2.stacks' = s0.stacks' ∧ s2.pot = s0.pot ∧
    s2.contributions = s0.contributions ∧ s2.currentBet = s0.currentBet ∧
    s2.lastRaiseSize = s0.lastRaiseSize ∧ s2.pendingPlayers = s0.pendingPlayers ∧
    s2.actionHistory = s0.actionHistory ∧ s2.handOver = s0.handOver ∧
    s2.winner = s0.winner ∧ s2.foldedPlayers = s0.foldedPlayers ∧
    s2.allInPlayers = s0.allInPlayers ∧ s2.smallBlind = s0.smallBlind ∧
    s2.bigBlind = s0.bigBlind ∧ s2.startingStack = s0.startingStack ∧
    r.handOver = s0.handOver ∧ r.winner = s0.winner ∧
    (s2.currentPlayer = none ∨ s2.currentPlayer = s0.nextPlayer pid ∨
      (s0.handOver = true ∧ s2.currentPlayer = s0.currentPlayer)) := by
  have h1 : (finishStep s0 pid rc).1 = s2 := by rw [h]
  have h2 : (finishStep s0 pid rc).2 = .ok r := by rw [h]
  rw [finishStep_fst] at h1
  obtain ⟨rc2, hsnd⟩ := finishStep_snd s0 pid rc
  rw [h2] at hsnd
  injection hsnd with hr
  subst hr
  subst h1
  refine ⟨?_, ?_, ?_, ?_, ?_, ?_, ?_, ?_, ?_, ?_, ?_, ?_, ?_, ?_, ?_, ?_, ?_, ?_⟩
  all_goals try simp
  by_cases hb1 : s0.handOver = false ∧ rc = false
  · simp [hb1]
  · by_cases hb2 : rc = true
    · simp [hb1, hb2]
    · have hrc : rc = false := by simpa using hb2
      have hho : s0.handOver = true := by
        rcases Bool.eq_false_or_eq_true s0.handOver with hh | hh
        · exact hh
        · exact absurd ⟨hh, hrc⟩ hb1
      simp [hb1, hb2, hho]

theorem activePlayers_congr {s t : BState} (hp : s.players = t.players)
    (hf : s.foldedPlayers = t.foldedPlayers) : s.activePlayers = t.activePlayers := by
  simp [activePlayers, hp, hf]

theorem activePlayers_singleton_mem {t : BState} {w : Seat}
    (h : t.activePlayers = [w]) : w ∈ t.players := by
  have hmem : w ∈ t.activePlayers := by
    rw [h]; exact List.mem_singleton_self w
  simp only [activePlayers, List.mem_filter] at hmem
  exact hmem.1

theorem step_ok_spec {s : BState} {a : Action} {pid : Seat} {s2 : BState}
    {r : StepResult} (h : s.step a pid = (s2, .ok r)) :
    s.handOver = false ∧ s.currentPlayer = some pid ∧ pid ∉ s.foldedPlayers ∧
    s2.players = s.players ∧ s2.smallBlind = s.smallBlind ∧ s2.bigBlind = s.bigBlind ∧
    keysOf s2.stacks' = keysOf s.stacks' ∧
    (pid ∈ keysOf s.stacks' → (keysOf s.stacks').Nodup → totalChips s2 = totalChips s) ∧
    (∀ c, s2.currentPlayer = some c →
      c ∈ s2.players ∧ c ∉ s2.foldedPlayers ∧ c ∉ s2.allInPlayers ∧
        c ∈ s2.pendingPlayers) ∧
    r.handOver = s2.handOver ∧ r.winner = s2.winner ∧
    (r.handOver = true →
      a.action = .fold ∧ s2.stacks' = s.stacks' ∧ s2.pot = s.pot ∧
      s2.currentPlayer = none ∧
      ∃ w, s2.winner = .single w ∧ s2.activePlayers = [w] ∧ w ∈ s2.players) ∧
    (r.roundComplete = true → s2.currentPlayer = none) := by
  simp only [step] at h
  split at h
  · simp at h
  next hho =>
  split at h
  · simp at h
  next hcp =>
  split at h
  · simp at h
  next hfold =>
  have hho' : s.handOver = false := by simpa using hho
  have hcp' : s.currentPlayer = some pid := not_not.mp hcp
  have hfold' : pid ∉ s.foldedPlayers := by simpa using hfold
  split at h
  -- fold
  · next hafold =>
    split at h
    · next hlen =>
      injection h with h1 h2
      injection h2 with h2
      subst h1
      subst h2
      obtain ⟨w, hw⟩ := List.length_eq_one.mp hlen
      refine ⟨hho', hcp', hfold', ?_, ?_, ?_, ?_, ?_, ?_, ?_, ?_, ?_, ?_⟩
      · simp [recordAction]
      · simp [recordAction]
      · simp [recordAction]
      · simp [recordAction]
      · intro _ _
        simp [totalChips, recordAction]
      · intro c hc
        simp at hc
      · simp
      · simp
      · intro _
        refine ⟨hafold, by simp [recordAction], by simp [recordAction], by simp,
          w, ?_, ?_, ?_⟩
        · simp [hw]
        · simp only [activePlayers] at hw ⊢
          simpa using hw
        · have hwmem := activePlayers_singleton_mem hw
          simp only [recordAction] at hwmem
          simpa [recordAction] using hwmem
      · intro hrc
        simp at hrc
    · next hlen =>
      obtain ⟨hpl, hst, hpot, hcon, hcb, hlrs, hpend, hah, hhov, hwin, hfp, hai,
        hsb, hbb, hss, hrho, hrwin, hcur⟩ := finishStep_ok h
      refine ⟨hho', hcp', hfold', by simpa [recordAction] using hpl,
        by simpa [recordAction] using hsb, by simpa [recordAction] using hbb,
        by rw [hst]; simp [recordAction], fun _ _ => ?_, fun c hc => ?_, ?_, ?_, ?_,
        fun hrc => finishStep_rc_none h hrc⟩
      · simp only [totalChips]
        rw [hst, hpot]
        simp [recordAction]
      · rcases hcur with hn | hn | ⟨hterm, _⟩
        · rw [hn] at hc; cases hc
        · rw [hn] at hc
          obtain ⟨hc1, hc2, hc3, hc4⟩ := nextPlayer_eq_some hc
          rw [hpl, hfp, hai, hpend]
          exact ⟨hc1, hc2, hc3, hc4⟩
        · simp [recordAction, hho'] at hterm
      · rw [hrho, hhov]
      · rw [hrwin, hwin]
      · intro habs
        rw [hrho] at habs
        simp [recordAction, hho'] at habs
  -- check
  · next hacheck =>
    split at h
    · simp at h
    next htc =>
    obtain ⟨hpl, hst, hpot, hcon, hcb, hlrs, hpend, hah, hhov, hwin, hfp, hai,
      hsb, hbb, hss, hrho, hrwin, hcur⟩ := finishStep_ok h
    refine ⟨hho', hcp', hfold', by simpa [recordAction] using hpl,
      by simpa [recordAction] using hsb, by simpa [recordAction] using hbb,
      by rw [hst]; simp [recordAction], fun _ _ => ?_, fun c hc => ?_, ?_, ?_, ?_,
      fun hrc => finishStep_rc_none h hrc⟩
    · simp only [totalChips]
      rw [hst, hpot]
      simp [recordAction]
    · rcases hcur with hn | hn | ⟨hterm, _⟩
      · rw [hn] at hc; cases hc
      · rw [hn] at hc
        obtain ⟨hc1, hc2, hc3, hc4⟩ := nextPlayer_eq_some hc
        rw [hpl, hfp, hai, hpend]
        exact ⟨hc1, hc2, hc3, hc4⟩
      · simp [recordAction, hho'] at hterm
    · rw [hrho, hhov]
    · rw [hrwin, hwin]
    · intro habs
      rw [hrho] at habs
      simp [recordAction, hho'] at habs
  -- call
  · next hacall =>
    split at h
    · simp at h
    next htc =>
    split at h
    · simp at h
    next s3v heq =>
    obtain ⟨hle3, rfl⟩ := applyChips_ok heq
    split at h
    all_goals
      obtain ⟨hpl, hst, hpot, hcon, hcb, hlrs, hpend, hah, hhov, hwin, hfp, hai,
        hsb, hbb, hss, hrho, hrwin, hcur⟩ := finishStep_ok h
      refine ⟨hho', hcp', hfold', by simpa [recordAction] using hpl,
        by simpa [recordAction] using hsb, by simpa [recordAction] using hbb,
        by rw [hst]; simp [recordAction, keysOf_setV], fun hmem hnd => ?_,
        fun c hc => ?_, by rw [hrho, hhov], by rw [hrwin, hwin], ?_,
        fun hrc => finishStep_rc_none h hrc⟩
      · simp only [totalChips]
        rw [hst, hpot]
        simp only [recordAction]
        rw [sumV_setV _ _ _ hnd hmem]
        omega
      · rcases hcur with hn | hn | ⟨hterm, _⟩
        · rw [hn] at hc; cases hc
        · rw [hn] at hc
          obtain ⟨hc1, hc2, hc3, hc4⟩ := nextPlayer_eq_some hc
          rw [hpl, hfp, hai, hpend]
          exact ⟨hc1, hc2, hc3, hc4⟩
        · simp [recordAction, hho'] at hterm
      · intro habs
        rw [hrho] at habs
        simp [recordAction, hho'] at habs
  -- raise
  · next haraise =>
    split at h
    · simp at h
    next amt hamt =>
    split at h
    · simp at h
    next s1v heq =>
    obtain ⟨hgt, hreqle, hshort, hfull, hcb1, hpl1, hfp1, hho1, hwin1, hcur1,
      hah1, hsb1, hbb1, hkeys1, hpend1, hai1, htot1⟩ := applyRaise_ok heq
    obtain ⟨hpl, hst, hpot, hcon, hcb, hlrs, hpend, hah, hhov, hwin, hfp, hai,
      hsb, hbb, hss, hrho, hrwin, hcur⟩ := finishStep_ok h
    have hpl' : s2.players = s.players := by
      rw [hpl]; simpa [recordAction] using hpl1
    have hho2 : s1v.handOver = false := by rw [hho1, hho']
    refine ⟨hho', hcp', hfold', hpl', ?_, ?_, ?_, fun hmem hnd => ?_,
      fun c hc => ?_, ?_, ?_, ?_, fun hrc => finishStep_rc_none h hrc⟩
    · rw [hsb]
      simp only [recordAction]
      exact hsb1
    · rw [hbb]
      simp only [recordAction]
      exact hbb1
    · rw [hst]
      simpa [recordAction] using hkeys1
    · have h2 : totalChips s2 = totalChips s1v := by
        simp only [totalChips]
        rw [hst, hpot]
        simp [recordAction]
      rw [h2]
      exact htot1 hmem hnd
    · rcases hcur with hn | hn | ⟨hterm, _⟩
      · rw [hn] at hc; cases hc
      · rw [hn] at hc
        obtain ⟨hc1, hc2, hc3, hc4⟩ := nextPlayer_eq_some hc
        rw [hpl, hfp, hai, hpend]
        exact ⟨hc1, hc2, hc3, hc4⟩
      · rw [show (s1v.recordAction pid a).handOver = s1v.handOver from by
          simp [recordAction], hho2] at hterm
        simp at hterm
    · rw [hrho, hhov]
    · rw [hrwin, hwin]
    · intro habs
      rw [hrho] at habs
      simp [recordAction, hho2] at habs

theorem applyRaise_error {s : BState} {pid : Seat} {amt : Int} {s1 : BState}
    {e : String} (h : s.applyRaise pid amt = (s1, some e)) : s1 = s := by
  simp only [applyRaise] at h
  split at h
  · exact (Prod.mk.injEq .. ▸ h).1.symm
  next hgt =>
  split at h
  · exact (Prod.mk.injEq .. ▸ h).1.symm
  next hreq =>
  split at h
  · exact (Prod.mk.injEq .. ▸ h).1.symm
  next hmin =>
  split at h
  · next e' heq =>
    exfalso
    have hcond := applyChips_error_iff.mp ⟨e', heq⟩
    revert hcond
    split
    · simp only []
      omega
    · simp only []
      omega
  · simp at h

theorem applyRaise_reject_low {s : BState} {pid : Seat} {amt : Int}
    (h : amt ≤ s.currentBet) :
    s.applyRaise pid amt = (s, some "Raise must increase the current bet") := by
  simp only [applyRaise]
  rw [if_pos h]

theorem applyRaise_reject_over {s : BState} {pid : Seat} {amt : Int}
    (h1 : ¬ amt ≤ s.currentBet)
    (h2 : amt - getV s.contributions pid > getV s.stacks' pid) :
    s.applyRaise pid amt = (s, some "Raise exceeds stack") := by
  simp only [applyRaise]
  rw [if_neg h1, if_pos h2]

theorem applyRaise_reject_min {s : BState} {pid : Seat} {amt : Int}
    (h1 : ¬ amt ≤ s.currentBet)
    (h2 : ¬ amt - getV s.contributions pid > getV s.stacks' pid)
    (h3 : amt < s.minRaiseTo)
    (h4 : ¬ amt - getV s.contributions pid = getV s.stacks' pid) :
    s.applyRaise pid amt = (s, some "Raise below minimum") := by
  simp only [applyRaise]
  rw [if_neg h1, if_neg h2, if_pos ⟨h3, h4⟩]

theorem finishStep_ne_error {s0 : BState} {pid : Seat} {rc : Bool} {s2 : BState}
    {e : String} (h : finishStep s0 pid rc = (s2, .error e)) : False := by
  obtain ⟨rc2, hsnd⟩ := finishStep_snd s0 pid rc
  have h2 : (finishStep s0 pid rc).2 = .error e := by rw [h]
  rw [hsnd] at h2
  cases h2

theorem step_error_unchanged {s : BState} {a : Action} {pid : Seat}
    {s2 : BState} {e : String} (h : s.step a pid = (s2, .error e)) : s2 = s := by
  simp only [step] at h
  split at h
  · exact (Prod.mk.injEq .. ▸ h).1.symm
  next hho =>
  split at h
  · exact (Prod.mk.injEq .. ▸ h).1.symm
  next hcp =>
  split at h
  · exact (Prod.mk.injEq .. ▸ h).1.symm
  next hfold =>
  split at h
  -- fold
  · split at h
    · simp at h
    · next hlen =>
      exact (finishStep_ne_error h).elim
  -- check
  · split at h
    · exact (Prod.mk.injEq .. ▸ h).1.symm
    · next =>
      exact (finishStep_ne_error h).elim
  -- call
  · split at h
    · exact (Prod.mk.injEq .. ▸ h).1.symm
    next htc =>
    split at h
    · next e' heq =>
      exfalso
      have hcond := applyChips_error_iff.mp ⟨e', heq⟩
      simp only [recordAction] at hcond
      have hmin : min (s.toCall pid) (getV s.stacks' pid) ≤ getV s.stacks' pid :=
        min_le_right _ _
      omega
    · next s3v heq =>
      split at h
      all_goals exact (finishStep_ne_error h).elim
  -- raise
  · split at h
    · exact (Prod.mk.injEq .. ▸ h).1.symm
    next amt hamt =>
    split at h
    · next s1v e' heq =>
      have hs1 := applyRaise_error heq
      have := (Prod.mk.injEq .. ▸ h).1
      rw [← this, hs1]
    · next s1v heq =>
      exact (finishStep_ne_error h).elim

theorem mem_setDiff {l r : List Seat} {q : Seat} :
    q ∈ setDiff l r ↔ q ∈ l ∧ q ∉ r := by
  simp [setDiff]

theorem foldl_payout_split (split : Int) :
    ∀ (ws : List Seat) (m : ChipMap), (keysOf m).Nodup →
      (∀ q ∈ ws, q ∈ keysOf m) →
      keysOf (ws.foldl (fun acc p => setV acc p (getV acc p + split)) m) = keysOf m ∧
      sumV (ws.foldl (fun acc p => setV acc p (getV acc p + split)) m) =
        sumV m + split * ws.length
  | [], m, _, _ => by simp
  | p :: ws, m, hnd, hsub => by
    simp only [List.foldl_cons]
    have hp : p ∈ keysOf m := hsub p (List.mem_cons_self p ws)
    have hk : keysOf (setV m p (getV m p + split)) = keysOf m := keysOf_setV m p _
    have hs : sumV (setV m p (getV m p + split)) = sumV m + split := by
      rw [sumV_setV m p _ hnd hp]; ring
    obtain ⟨ihk, ihs⟩ := foldl_payout_split split ws (setV m p (getV m p + split))
      (hk ▸ hnd) (fun q hq => hk ▸ hsub q (List.mem_cons_of_mem p hq))
    refine ⟨by rw [ihk, hk], ?_⟩
    rw [ihs, hs]
    simp only [List.length_cons]
    push_cast
    ring

theorem payout_ok {s : BState} {w : Winner} {rem : Option Seat} {s2 : BState}
    (h : s.payout w rem = .ok s2)
    (hnd : (keysOf s.stacks').Nodup)
    (hwin : ∀ q ∈ s.payoutWinners w, q ∈ keysOf s.stacks')
    (hrem : ∀ q, rem = some q → q ∈ keysOf s.stacks') :
    s2.pot = 0 ∧ s2.handOver = true ∧ s2.winner = w ∧
    s2.players = s.players ∧ s2.currentPlayer = s.currentPlayer ∧
    s2.foldedPlayers = s.foldedPlayers ∧ s2.allInPlayers = s.allInPlayers ∧
    s2.pendingPlayers = s.pendingPlayers ∧
    keysOf s2.stacks' = keysOf s.stacks' ∧
    totalChips s2 = totalChips s := by
  simp only [payout] at h
  split at h
  · exact absurd h (by simp)
  next hne =>
  have hlen : 0 < (s.payoutWinners w).length := by
    cases hx : s.payoutWinners w with
    | nil => rw [hx] at hne; simp at hne
    | cons a t => simp [hx]
  cases h
  obtain ⟨hkf, hsf⟩ := foldl_payout_split (s.pot.ediv (s.payoutWinners w).length)
    (s.payoutWinners w) s.stacks' hnd hwin
  have hdm : ((s.payoutWinners w).length : Int) *
        s.pot.ediv ((s.payoutWinners w).length : Int) +
        s.pot.emod ((s.payoutWinners w).length : Int) = s.pot :=
    Int.ediv_add_emod s.pot ((s.payoutWinners w).length : Int)
  refine ⟨rfl, rfl, rfl, rfl, rfl, rfl, rfl, rfl, ?_, ?_⟩
  · show keysOf (if _ ≠ 0 then _ else _) = _
    split
    · rw [keysOf_setV, hkf]
    · exact hkf
  · simp only [totalChips]
    show sumV (if _ ≠ 0 then _ else _) + 0 = _
    split
    · next hr =>
      have hrecip :
          (rem.getD ((s.payoutWinners w).getD 0 "")) ∈
            keysOf ((s.payoutWinners w).foldl
              (fun m p => setV m p (getV m p +
                s.pot.ediv (s.payoutWinners w).length)) s.stacks') := by
        rw [hkf]
        cases hrm : rem with
        | some q => exact hrem q hrm
        | none =>
          simp only [Option.getD_none]
          exact hwin _ (mem_getD hlen)
      rw [sumV_setV _ _ _ (hkf ▸ hnd) hrecip, hsf]
      ring_nf
      ring_nf at hdm
      linarith [hdm]
    · next hr =>
      have hr0 : s.pot.emod ((s.payoutWinners w).length : Int) = 0 :=
        not_not.mp hr
      rw [hsf]
      ring_nf
      ring_nf at hdm
      linarith [hdm, hr0]

/-- The legal operations of a hand at the betting level: successful `step`
calls, successful `payout` calls whose winners and remainder seat are seats
of the stack table, and `start_new_round` street resets with a first actor
among the hand's players. -/
inductive LegalOps : BState → BState → Prop
  | refl (s : BState) : LegalOps s s
  | stepOp {s0 s s' : BState} {a : Action} {pid : Seat} {r : StepResult} :
      LegalOps s0 s → s.step a pid = (s', .ok r) → LegalOps s0 s'
  | payoutOp {s0 s s' : BState} {w : Winner} {rem : Option Seat} :
      LegalOps s0 s →
      (∀ q ∈ s.payoutWinners w, q ∈ keysOf s.stacks') →
      (∀ q, rem = some q → q ∈ keysOf s.stacks') →
      s.payout w rem = .ok s' → LegalOps s0 s'
  | newRoundOp {s0 s : BState} (fta : Seat) :
      LegalOps s0 s → fta ∈ s.players → LegalOps s0 (s.startNewRound fta)

/-- Well-formedness carried along a hand: stack keys are distinct, every
seat of the hand has a stack entry, and the current actor (if any) is a
seat of the hand. -/
def WFB (s : BState) : Prop :=
  (keysOf s.stacks').Nodup ∧
  (∀ p ∈ s.players, p ∈ keysOf s.stacks') ∧
  (∀ p, s.currentPlayer = some p → p ∈ s.players)

theorem keysOf_const_map (l : List Seat) (v : Int) :
    keysOf (l.map (fun p => (p, v))) = l := by
  simp [keysOf, List.map_map, Function.comp_def]

theorem keysOf_clamp (m : ChipMap) :
    keysOf (m.map (fun kv => (kv.1, max 0 kv.2))) = keysOf m := by
  simp [keysOf, List.map_map, Function.comp_def]

theorem startHandStacks_keys (s : BState) (players : List Seat)
    (hpl : players.Nodup) (hnd : (keysOf s.stacks').Nodup) :
    (keysOf (startHandStacks s players)).Nodup ∧
    ∀ p ∈ players, p ∈ keysOf (startHandStacks s players) := by
  unfold startHandStacks
  split
  · rw [keysOf_const_map]
    exact ⟨hpl, fun p hp => hp⟩
  · have hsplit : keysOf (s.stacks'.map (fun kv => (kv.1, max 0 kv.2)) ++
        (players.filter (fun p =>
          ¬ (keysOf (s.stacks'.map (fun kv => (kv.1, max 0 kv.2)))).contains p)).map
          (fun p => (p, s.startingStack))) =
        keysOf s.stacks' ++ players.filter (fun p =>
          ¬ (keysOf (s.stacks'.map (fun kv => (kv.1, max 0 kv.2)))).contains p) := by
      simp [keysOf, List.map_map, Function.comp_def]
    rw [hsplit]
    constructor
    · refine List.Nodup.append hnd (hpl.filter _) ?_
      intro a ha hb
      have hfb := List.of_mem_filter hb
      rw [keysOf_clamp] at hfb
      simp at hfb
      exact hfb ha
    · intro p hp
      by_cases hpm : p ∈ keysOf s.stacks'
      · exact List.mem_append_left _ hpm
      · refine List.mem_append_right _ ?_
        refine List.mem_filter.mpr ⟨hp, ?_⟩
        rw [keysOf_clamp]
        simpa using hpm

theorem startHand_WFB (s : BState) (players : List Seat) (sbP bbP fta : Seat)
    (hpl : players.Nodup) (hnd : (keysOf s.stacks').Nodup) (hfta : fta ∈ players) :
    WFB (s.startHand players sbP bbP fta) := by
  obtain ⟨hknd, hkmem⟩ := startHandStacks_keys s players hpl hnd
  simp only [startHand]
  split
  · exact ⟨by simpa using hknd, by simpa using hkmem, fun p hp => by simp at hp⟩
  · next hge =>
    split
    · refine ⟨?_, ?_, ?_⟩
      · simp only [postBlind, keysOf_setV]
        exact hknd
      · intro p hp
        simp only [postBlind, keysOf_setV]
        exact hkmem p (by simpa [postBlind] using hp)
      · intro p hp
        obtain ⟨hp1, _, _, _⟩ := nextPlayer_eq_some hp
        simpa [postBlind] using hp1
    · refine ⟨?_, ?_, ?_⟩
      · simp only [postBlind, keysOf_setV]
        exact hknd
      · intro p hp
        simp only [postBlind, keysOf_setV]
        exact hkmem p (by simpa [postBlind] using hp)
      · intro p hp
        simp only [postBlind] at hp
        cases hp
        simpa [postBlind] using hfta

theorem legalOps_conserves {s0 sF : BState} (hops : LegalOps s0 sF)
    (hwf : WFB s0) : WFB sF ∧ totalChips sF = totalChips s0 := by
  induction hops with
  | refl => exact ⟨hwf, rfl⟩
  | stepOp hops hstep ih =>
    obtain ⟨⟨ihnd, ihsub, ihcur⟩, ihtot⟩ := ih
    obtain ⟨hho, hcp, hf, hpl, hsb, hbb, hkeys, htot, hcur, _, _, _, _⟩ :=
      step_ok_spec hstep
    have hpidmem := ihsub _ (ihcur _ hcp)
    refine ⟨⟨hkeys ▸ ihnd, ?_, ?_⟩, ?_⟩
    · intro p hp
      rw [hkeys]
      exact ihsub p (hpl ▸ hp)
    · intro p hp
      exact (hcur p hp).1
    · rw [htot hpidmem ihnd, ihtot]
  | payoutOp hops hwin hrem hpay ih =>
    obtain ⟨⟨ihnd, ihsub, ihcur⟩, ihtot⟩ := ih
    obtain ⟨hpot, hhov, hwv, hpl, hcp, hfp, hai, hpend, hkeys, htot⟩ :=
      payout_ok hpay ihnd hwin hrem
    refine ⟨⟨hkeys ▸ ihnd, ?_, ?_⟩, by rw [htot, ihtot]⟩
    · intro p hp
      rw [hkeys]
      exact ihsub p (hpl ▸ hp)
    · intro p hp
      rw [hcp] at hp
      exact hpl ▸ ihcur p hp
  | newRoundOp fta hops hfta ih =>
    obtain ⟨⟨ihnd, ihsub, ihcur⟩, ihtot⟩ := ih
    refine ⟨⟨ihnd, ihsub, ?_⟩, ihtot⟩
    · intro p hp
      simp only [startNewRound] at hp
      cases hp
      exact hfta

theorem step_raise_eq (s : BState) (pid : Seat) (amt : Int)
    (hho : s.handOver = false) (hcp : s.currentPlayer = some pid)
    (hnf : pid ∉ s.foldedPlayers) :
    s.step ⟨.raise, some amt⟩ pid =
      match s.applyRaise pid amt with
      | (s1, some e) => (s1, .error e)
      | (s1, none) =>
        finishStep (s1.recordAction pid ⟨.raise, some amt⟩) pid false := by
  simp only [step]
  rw [if_neg (by simp [hho]), if_neg (by simp [hcp]), if_neg (by simpa using hnf)]

theorem applyRaise_accepted {s : BState} {pid : Seat} {amt : Int}
    (hgt : s.currentBet < amt)
    (hreq : amt - getV s.contributions pid ≤ getV s.stacks' pid)
    (hmin : s.minRaiseTo ≤ amt ∨ amt - getV s.contributions pid = getV s.stacks' pid) :
    ∃ s1, s.applyRaise pid amt = (s1, none) := by
  have hmin' :
      ¬ (amt < s.minRaiseTo ∧ ¬ amt - getV s.contributions pid = getV s.stacks' pid) := by
    rcases hmin with hm | hm
    · exact fun hh => absurd hh.1 (by omega)
    · exact fun hh => hh.2 hm
  simp only [applyRaise]
  rw [if_neg (by omega), if_neg (by omega), if_neg hmin']
  split
  · next s3 heq =>
    exfalso
    have hc := applyChips_error_iff.mp ⟨_, heq⟩
    revert hc
    split
    · simp only []
      omega
    · simp only []
      omega
  · next s3 heq =>
    exact ⟨_, rfl⟩

end BState

/-- Decidable equality for `Except`, so that concrete runs of the fallible
operations can be checked by evaluation. -/
instance {ε α : Type} [DecidableEq ε] [DecidableEq α] : DecidableEq (Except ε α) :=
  fun a b =>
    match a, b with
    | .error e, .error e' =>
      if h : e = e' then isTrue (by rw [h]) else
        isFalse (by intro hh; cases hh; exact h rfl)
    | .error _, .ok _ => isFalse (by intro hh; cases hh)
    | .ok _, .error _ => isFalse (by intro hh; cases hh)
    | .ok x, .ok x' =>
      if h : x = x' then isTrue (by rw [h]) else
        isFalse (by intro hh; cases hh; exact h rfl)

/-! ### Fixtures: concrete states used by witnesses and counterexamples -/

/-- Fresh heads-up hand: blinds 5/10, stacks 1000, p1 to act. -/
def hand2 : BState := BState.startHand {} ["p1", "p2"] "p1" "p2" "p1"

/-- Betting state with a short stack: p2 has 26 chips total. -/
def c6Start : BState :=
  BState.startHand { stacks' := [("p1", 1000), ("p2", 26)] } ["p1", "p2"] "p1" "p2" "p1"

/-- After p1 raises to 20, p2 faces a bet it can call but whose min-raise
target exceeds its maximum raise. -/
def c6Raised : BState := (c6Start.step ⟨.raise, some 20⟩ "p1").1

/-- Three-handed state with a 15-chip stack on the big blind seat. -/
def c4Start : BState :=
  BState.startHand { stacks' := [("p1", 100), ("p2", 100), ("p3", 15)] }
    ["p1", "p2", "p3"] "p2" "p3" "p1"

/-- After p1 and p2 call the big blind, p3 may move all-in short. -/
def c4Calls : BState :=
  ((c4Start.step ⟨.call, none⟩ "p1").1.step ⟨.call, none⟩ "p2").1

/-- State after the short all-in raise to 15 by p3. -/
def c4Short : BState := (c4Calls.step ⟨.raise, some 15⟩ "p3").1

/-! ### Claim C3: min-raise rule -/

/-- C3: for a state with a current actor (not folded, hand not over), a
raise whose target is below `minRaiseTo()` and whose required chips are not
the actor's whole stack is rejected with the state unchanged; a raise whose
target does not exceed `currentBet`, or which requires more chips than the
actor's stack, is always rejected with the state unchanged. -/
theorem C3_min_raise_rule (s : BState) (pid : Seat) (amt : Int)
    (hho : s.handOver = false) (hcp : s.currentPlayer = some pid)
    (hnf : pid ∉ s.foldedPlayers) :
    (amt ≤ s.currentBet →
      s.step ⟨.raise, some amt⟩ pid =
        (s, .error "Raise must increase the current bet")) ∧
    (amt - getV s.contributions pid > getV s.stacks' pid →
      ∃ e, s.step ⟨.raise, some amt⟩ pid = (s, .error e)) ∧
    (amt < s.minRaiseTo → amt - getV s.contributions pid ≠ getV s.stacks' pid →
      ∃ e, s.step ⟨.raise, some amt⟩ pid = (s, .error e)) := by
  rw [BState.step_raise_eq s pid amt hho hcp hnf]
  refine ⟨?_, ?_, ?_⟩
  · intro hlow
    rw [BState.applyRaise_reject_low hlow]
  · intro hover
    by_cases hlow : amt ≤ s.currentBet
    · exact ⟨_, by rw [BState.applyRaise_reject_low hlow]⟩
    · exact ⟨_, by rw [BState.applyRaise_reject_over hlow hover]⟩
  · intro hmin hne
    by_cases hlow : amt ≤ s.currentBet
    · exact ⟨_, by rw [BState.applyRaise_reject_low hlow]⟩
    · by_cases hover : amt - getV s.contributions pid > getV s.stacks' pid
      · exact ⟨_, by rw [BState.applyRaise_reject_over hlow hover]⟩
      · exact ⟨_, by rw [BState.applyRaise_reject_min hlow hover hmin hne]⟩

/-- Witness for C3: on a fresh heads-up hand, a raise to 15 (below the
minimum of 20, and not an all-in) is rejected leaving the state unchanged. -/
theorem C3_witness :
    ∃ e, hand2.step ⟨.raise, some 15⟩ "p1" = (hand2, .error e) :=
  (C3_min_raise_rule hand2 "p1" 15 (by decide) (by decide) (by decide)).2.2
    (by decide) (by decide)

/-! ### Claim C8: invalid actions leave the state unchanged -/

/-- C8: whenever `BettingState.step` rejects an action — hand already over,
wrong seat, folded seat, check facing a bet, call with no bet, raise with a
missing amount, raise not above `currentBet`, raise beyond the stack, or a
below-minimum raise that is not an all-in — it returns an error and the
resulting state equals the input state in every component. -/
theorem C8_invalid_action_atomicity (s : BState) (a : Action) (pid : Seat)
    (s2 : BState) (e : String) (h : s.step a pid = (s2, .error e)) : s2 = s :=
  BState.step_error_unchanged h

/-- Witness for C8: a below-minimum raise on the fresh heads-up hand errors
and leaves the state exactly as it was. -/
theorem C8_witness :
    hand2.step ⟨.raise, some 15⟩ "p1" = (hand2, .error "Raise below minimum") ∧
    hand2 = hand2 :=
  ⟨by decide,
    C8_invalid_action_atomicity hand2 ⟨.raise, some 15⟩ "p1" hand2
      "Raise below minimum" (by decide)⟩

/-! ### Claim C4: short all-in -/

/-- Counterexample for C4: in the three-handed hand, p1 and p2 have exactly
matched the current bet of 10 when p3 moves all-in short to 15 (below the
minimum raise of 20, consuming its whole stack). The raise is accepted and
leaves `lastRaiseSize` unchanged, but p1 — a seat that had already matched
`currentBet` — re-enters `pendingPlayers`, contradicting the claim that such
seats do not re-enter. -/
theorem C4_short_allin_counterexample :
    (c4Calls.step ⟨.raise, some 15⟩ "p3").2 =
      .ok ⟨false, false, .null⟩ ∧
    (15 : Int) < c4Calls.minRaiseTo ∧
    (15 : Int) - getV c4Calls.contributions "p3" = getV c4Calls.stacks' "p3" ∧
    getV c4Calls.contributions "p1" = c4Calls.currentBet ∧
    c4Short.lastRaiseSize = c4Calls.lastRaiseSize ∧
    "p1" ∈ c4Short.pendingPlayers := by
  decide

/-- C4 (amended): an accepted raise whose target is below `minRaiseTo()`
consumes the actor's entire stack and leaves `lastRaiseSize` unchanged; like
every raise, it resets `pendingPlayers` to all non-folded, non-all-in seats
other than the raiser — so a seat that had already matched `currentBet` does
re-enter `pendingPlayers`. -/
theorem C4_short_allin_amended (s : BState) (pid : Seat) (amt : Int)
    (s2 : BState) (r : StepResult)
    (h : s.step ⟨.raise, some amt⟩ pid = (s2, .ok r))
    (hshort : amt < s.minRaiseTo) :
    amt - getV s.contributions pid = getV s.stacks' pid ∧
    s2.lastRaiseSize = s.lastRaiseSize ∧
    (∀ q, q ∈ s2.pendingPlayers ↔
      q ∈ s.activePlayers ∧ q ≠ pid ∧ q ∉ s2.allInPlayers) := by
  obtain ⟨hho, hcp, hnf, _⟩ := BState.step_ok_spec h
  rw [BState.step_raise_eq s pid amt hho hcp hnf] at h
  rcases happly : s.applyRaise pid amt with ⟨s1v, err⟩
  cases err with
  | some e =>
    rw [happly] at h
    simp at h
  | none =>
    rw [happly] at h
    obtain ⟨hgt, hreqle, hshortc, hfull, hcb1, hpl1, hfp1, hho1, hwin1, hcur1,
      hah1, hsb1, hbb1, hkeys1, hpend1, hai1, htot1⟩ := BState.applyRaise_ok happly
    obtain ⟨hpl, hst, hpot, hcon, hcb, hlrs, hpend, hah, hhov, hwin, hfp, hai,
      hsb, hbb, hss, hrho, hrwin, hcur⟩ := BState.finishStep_ok h
    obtain ⟨hreqeq, hlrs1⟩ := hshortc hshort
    refine ⟨hreqeq, ?_, ?_⟩
    · rw [hlrs]
      simpa [BState.recordAction] using hlrs1
    · intro q
      rw [hpend, hai]
      simp only [BState.recordAction]
      rw [hpend1]
      simp [BState.mem_setDiff, and_assoc]

/-- Witness for the amended C4: the short all-in of the three-handed
fixture consumes p3's stack, keeps `lastRaiseSize` at 10, and resets the
pending set to the other non-all-in active seats. -/
theorem C4_witness :
    (15 : Int) - getV c4Calls.contributions "p3" = getV c4Calls.stacks' "p3" ∧
    c4Short.lastRaiseSize = c4Calls.lastRaiseSize ∧
    (∀ q, q ∈ c4Short.pendingPlayers ↔
      q ∈ c4Calls.activePlayers ∧ q ≠ "p3" ∧ q ∉ c4Short.allInPlayers) :=
  C4_short_allin_amended c4Calls "p3" 15 c4Short ⟨false, false, .null⟩
    (by decide) (by decide)

/-! ### Claim C6: legal actions are safe -/

theorem BState.legalActions_mem (s : BState) (p : Seat)
    (hho : s.handOver = false) (hcp : s.currentPlayer = some p) (a : ActionType) :
    a ∈ s.legalActions ↔
      a = .fold ∨
      (a = .check ∧ s.toCall p = 0) ∨
      (a = .call ∧ s.toCall p ≠ 0 ∧ 0 < getV s.stacks' p) ∨
      (a = .raise ∧ getV s.stacks' p > s.toCall p ∧ s.canRaise p) := by
  have hla : s.legalActions = [ActionType.fold]
      ++ (if s.toCall p = 0 then [ActionType.check]
          else if getV s.stacks' p > 0 then [ActionType.call] else [])
      ++ (if getV s.stacks' p > s.toCall p ∧ s.canRaise p
          then [ActionType.raise] else []) := by
    simp only [legalActions]
    rw [if_neg (by simp [hho]), hcp]
  rw [hla]
  by_cases htc : s.toCall p = 0 <;>
    by_cases hst : getV s.stacks' p > 0 <;>
      by_cases hcr : getV s.stacks' p > s.toCall p ∧ s.canRaise p <;>
        simp [htc, hst, hcr] <;>
          tauto

theorem BState.legalActions_spec (s : BState) (p : Seat)
    (hho : s.handOver = false) (hcp : s.currentPlayer = some p) :
    (ActionType.check ∈ s.legalActions → s.toCall p = 0) ∧
    (ActionType.call ∈ s.legalActions → s.toCall p ≠ 0 ∧ 0 < getV s.stacks' p) ∧
    (ActionType.raise ∈ s.legalActions →
      getV s.stacks' p > s.toCall p ∧ s.canRaise p) := by
  refine ⟨?_, ?_, ?_⟩
  · intro hmem
    have hh := (BState.legalActions_mem s p hho hcp ActionType.check).mp hmem
    simpa using hh
  · intro hmem
    have hh := (BState.legalActions_mem s p hho hcp ActionType.call).mp hmem
    simpa using hh
  · intro hmem
    have hh := (BState.legalActions_mem s p hho hcp ActionType.raise).mp hmem
    simpa using hh

/-- Counterexample for C6: in `c6Raised` (reached by legal steps from
`startHand`), p2 is to act, `raise` is among the legal actions, but
`maxRaiseTo(p2) = 26 < 30 = minRaiseTo()`, so the interval
`[minRaiseTo, maxRaiseTo]` is empty and no raise amount inside it exists —
yet the all-in raise to 26 is accepted. -/
theorem C6_legal_actions_counterexample :
    (c6Start.step ⟨.raise, some 20⟩ "p1").2 = .ok ⟨false, false, .null⟩ ∧
    c6Raised.currentPlayer = some "p2" ∧
    ActionType.raise ∈ c6Raised.legalActions ∧
    c6Raised.maxRaiseTo "p2" = 26 ∧
    c6Raised.minRaiseTo = 30 ∧
    (c6Raised.step ⟨.raise, some 26⟩ "p2").2.isOk = true := by
  decide

/-- C6 (amended): for a state with a current actor (not folded, hand not
over, positive `lastRaiseSize`), every action kind returned by
`legalActions()` can be executed by the actor without failure, where a raise
is given any amount in `[minRaiseTo, maxRaiseTo]`, or the all-in amount
`maxRaiseTo` when that interval is empty (short all-in). -/
theorem C6_legal_actions_amended (s : BState) (p : Seat)
    (hho : s.handOver = false) (hcp : s.currentPlayer = some p)
    (hnf : p ∉ s.foldedPlayers) (hlrs : 0 < s.lastRaiseSize) :
    ((s.step ⟨.fold, none⟩ p).2.isOk = true) ∧
    (ActionType.check ∈ s.legalActions →
      (s.step ⟨.check, none⟩ p).2.isOk = true) ∧
    (ActionType.call ∈ s.legalActions →
      (s.step ⟨.call, none⟩ p).2.isOk = true) ∧
    (ActionType.raise ∈ s.legalActions →
      ∀ amt : Int,
        (s.minRaiseTo ≤ amt ∧ amt ≤ s.maxRaiseTo p) ∨ amt = s.maxRaiseTo p →
        (s.step ⟨.raise, some amt⟩ p).2.isOk = true) := by
  obtain ⟨hchk, hcall, hraise⟩ := BState.legalActions_spec s p hho hcp
  have hcbmin : s.currentBet < s.minRaiseTo := by
    unfold BState.minRaiseTo
    split <;> omega
  refine ⟨?_, ?_, ?_, ?_⟩
  · simp only [BState.step]
    rw [if_neg (by simp [hho]), if_neg (by simp [hcp]), if_neg (by simpa using hnf)]
    split
    · rfl
    · next hlen =>
      obtain ⟨rc2, hsnd⟩ := BState.finishStep_snd _ p _
      rw [hsnd]
      rfl
  · intro hmem
    have htc := hchk hmem
    simp only [BState.step]
    rw [if_neg (by simp [hho]), if_neg (by simp [hcp]), if_neg (by simpa using hnf),
      if_neg (by simp [htc])]
    obtain ⟨rc2, hsnd⟩ := BState.finishStep_snd _ p _
    rw [hsnd]
    rfl
  · intro hmem
    obtain ⟨htc, hst⟩ := hcall hmem
    simp only [BState.step]
    rw [if_neg (by simp [hho]), if_neg (by simp [hcp]), if_neg (by simpa using hnf),
      if_neg htc]
    split
    · next e happ =>
      exfalso
      have hc := BState.applyChips_error_iff.mp ⟨e, happ⟩
      simp only [BState.recordAction] at hc
      have hmle :
          min (s.toCall p)
              (getV (s.recordAction p ⟨ActionType.call, none⟩).stacks' p) ≤
            getV (s.recordAction p ⟨ActionType.call, none⟩).stacks' p :=
        min_le_right _ _
      simp only [BState.recordAction] at hmle
      omega
    · next s3 happ =>
      split
      all_goals
        obtain ⟨rc2, hsnd⟩ := BState.finishStep_snd _ p _
        rw [hsnd]
        rfl
  · intro hmem amt hamt
    obtain ⟨hst, hcr⟩ := hraise hmem
    have hcr' : getV s.contributions p + getV s.stacks' p > s.currentBet := hcr
    have htc' : s.toCall p = max 0 (s.currentBet - getV s.contributions p) := rfl
    have hgt : s.currentBet < amt := by
      rcases hamt with ⟨h1, _⟩ | h1
      · omega
      · rw [h1]
        simp only [BState.maxRaiseTo]
        omega
    have hreqle : amt - getV s.contributions p ≤ getV s.stacks' p := by
      rcases hamt with ⟨_, h2⟩ | h2
      · simp only [BState.maxRaiseTo] at h2
        omega
      · rw [h2]
        simp only [BState.maxRaiseTo]
        omega
    have hminor : s.minRaiseTo ≤ amt ∨
        amt - getV s.contributions p = getV s.stacks' p := by
      rcases hamt with ⟨h1, _⟩ | h1
      · exact Or.inl h1
      · refine Or.inr ?_
        rw [h1]
        simp only [BState.maxRaiseTo]
        ring
    obtain ⟨s1, happ⟩ := BState.applyRaise_accepted hgt hreqle hminor
    rw [BState.step_raise_eq s p amt hho hcp hnf, happ]
    obtain ⟨rc2, hsnd⟩ := BState.finishStep_snd _ p _
    rw [hsnd]
    rfl

/-- Witness for the amended C6: in the short-stack fixture each legal kind
executes, and in particular the all-in raise amount `maxRaiseTo = 26` is
accepted although the min-raise interval is empty. -/
theorem C6_witness :
    ((c6Raised.step ⟨.fold, none⟩ "p2").2.isOk = true) ∧
    (ActionType.check ∈ c6Raised.legalActions →
      (c6Raised.step ⟨.check, none⟩ "p2").2.isOk = true) ∧
    (ActionType.call ∈ c6Raised.legalActions →
      (c6Raised.step ⟨.call, none⟩ "p2").2.isOk = true) ∧
    (ActionType.raise ∈ c6Raised.legalActions →
      ∀ amt : Int,
        (c6Raised.minRaiseTo ≤ amt ∧ amt ≤ c6Raised.maxRaiseTo "p2") ∨
          amt = c6Raised.maxRaiseTo "p2" →
        (c6Raised.step ⟨.raise, some amt⟩ "p2").2.isOk = true) :=
  C6_legal_actions_amended c6Raised "p2" (by decide) (by decide) (by decide)
    (by decide)

/-! ### Engine-level machinery -/

theorem BState.payout_frame {s : BState} {w : Winner} {rem : Option Seat}
    {s2 : BState} (h : s.payout w rem = .ok s2) :
    s2.players = s.players ∧ s2.currentPlayer = s.currentPlayer ∧
    s2.foldedPlayers = s.foldedPlayers ∧ s2.allInPlayers = s.allInPlayers ∧
    s2.pendingPlayers = s.pendingPlayers ∧ s2.handOver = true ∧
    s2.winner = w ∧ s2.pot = 0 := by
  simp only [BState.payout] at h
  split at h
  · exact absurd h (by simp)
  · cases h
    exact ⟨rfl, rfl, rfl, rfl, rfl, rfl, rfl, rfl⟩

theorem Eng.endHandByFold_shape {e1 : Eng} {w : Winner} {e2 : Eng}
    (h : Eng.endHandByFold e1 w = .ok e2) :
    e1.betting.payout w (some e1.buttonPlayer) = .ok e2.betting ∧
    e2.street = .showdown := by
  simp only [Eng.endHandByFold] at h
  split at h
  · exact absurd h (by simp)
  · next b heq =>
    cases h
    exact ⟨heq, rfl⟩

theorem Eng.resolveShowdown_shape {evalHand : List String → List String → Int}
    {e1 : Eng} {e2 : Eng} (h : Eng.resolveShowdown evalHand e1 = .ok e2) :
    ∃ w, e1.betting.payout w (some e1.buttonPlayer) = .ok e2.betting := by
  simp only [Eng.resolveShowdown] at h
  split at h
  · exact absurd h (by simp)
  · split at h
    · exact absurd h (by simp)
    · next b heq =>
      cases h
      exact ⟨_, heq⟩

theorem Eng.dealFlop_betting {e1 e2 : Eng} (h : Eng.dealFlop e1 = .ok e2) :
    e2.betting = e1.betting := by
  simp only [Eng.dealFlop] at h
  split at h
  · exact absurd h (by simp)
  · cases h
    rfl

theorem Eng.dealTurn_betting {e1 e2 : Eng} (h : Eng.dealTurn e1 = .ok e2) :
    e2.betting = e1.betting := by
  simp only [Eng.dealTurn] at h
  split at h
  · exact absurd h (by simp)
  · cases h
    rfl

theorem Eng.dealRiver_betting {e1 e2 : Eng} (h : Eng.dealRiver e1 = .ok e2) :
    e2.betting = e1.betting := by
  simp only [Eng.dealRiver] at h
  split at h
  · exact absurd h (by simp)
  · cases h
    rfl

theorem Eng.step_cases {evalHand : List String → List String → Int} {e : Eng}
    {a : Action} {pid : Seat} {e' : Eng} {r : StepResult}
    (h : Eng.step evalHand e a pid = (e', .ok r)) :
    (e.betting.step a pid).2 = .ok r ∧
    ((r.handOver = true ∧
        Eng.endHandByFold { e with betting := (e.betting.step a pid).1 }
          r.winner = .ok e') ∨
     (r.handOver = false ∧ r.roundComplete = true ∧
        (∃ e2 : Eng, e2.betting = (e.betting.step a pid).1 ∧
          e' = { e2 with betting :=
            ((e.betting.step a pid).1).startNewRound (Eng.firstToActPostflop e2) })) ∨
     (r.handOver = false ∧ r.roundComplete = true ∧
        Eng.resolveShowdown evalHand
          { e with betting := (e.betting.step a pid).1 } = .ok e') ∨
     (r.handOver = false ∧ e' = { e with betting := (e.betting.step a pid).1 })) := by
  simp only [Eng.step] at h
  split at h
  · simp at h
  next r0 heq =>
  split at h
  · next hro =>
    split at h
    · simp at h
    · next e2v heq2 =>
      injection h with h1 h2
      injection h2 with h2
      subst h1
      subst h2
      exact ⟨heq, Or.inl ⟨hro, heq2⟩⟩
  · next hro =>
    have hro' : r0.handOver = false := by simpa using hro
    split at h
    · next hrc =>
      split at h
      all_goals try (split at h)
      all_goals first
        | (injection h with h1 h2
           exact Except.noConfusion h2)
        | (next e2v heq2 =>
            injection h with h1 h2
            injection h2 with h2
            subst h1
            subst h2
            have hbe : e2v.betting = (e.betting.step a pid).1 := by
              first
                | exact Eng.dealFlop_betting heq2
                | exact Eng.dealTurn_betting heq2
                | exact Eng.dealRiver_betting heq2
            refine ⟨heq, Or.inr (Or.inl ⟨hro', hrc, e2v, hbe, ?_⟩)⟩
            rw [hbe])
        | (next e2v heq2 =>
            injection h with h1 h2
            injection h2 with h2
            subst h1
            subst h2
            exact ⟨heq, Or.inr (Or.inr (Or.inl ⟨hro', hrc, heq2⟩))⟩)
        | (injection h with h1 h2
           injection h2 with h2
           subst h1
           subst h2
           exact ⟨heq, Or.inr (Or.inr (Or.inr ⟨hro', rfl⟩))⟩)
    · next hrc =>
      injection h with h1 h2
      injection h2 with h2
      subst h1
      subst h2
      exact ⟨heq, Or.inr (Or.inr (Or.inr ⟨hro', rfl⟩))⟩

theorem findSome?_range_none {n : Nat} {f : Nat → Option Seat}
    (h : (List.range n).findSome? f = none) {k : Nat} (hk : k < n) : f k = none := by
  rw [List.findSome?_eq_none_iff] at h
  exact h k (List.mem_range.mpr hk)

/-- The rotating scan of `Engine._first_to_act_postflop` lands on an in-hand
seat that is neither folded nor all-in, whenever such a seat exists among
`betting.players`. -/
theorem Eng.firstToActPostflop_eligible {e : Eng} {p : Seat}
    (hne : e.betting.players ≠ []) (hp : p ∈ e.betting.players)
    (hf : e.betting.foldedPlayers.contains p = false)
    (ha : e.betting.allInPlayers.contains p = false) :
    Eng.firstToActPostflop e ∈ e.betting.players ∧
    e.betting.foldedPlayers.contains (Eng.firstToActPostflop e) = false ∧
    e.betting.allInPlayers.contains (Eng.firstToActPostflop e) = false := by
  have hlen : 0 < e.betting.players.length := List.length_pos.mpr hne
  have hLE : e.betting.players.isEmpty = false := by
    simp [List.isEmpty_iff, hne]
  obtain ⟨⟨i, hi⟩, hgi⟩ := List.mem_iff_get.mp hp
  simp only [Eng.firstToActPostflop, hLE, Bool.false_eq_true, if_false]
  have main : ∀ si : Nat, si < e.betting.players.length →
      (match (List.range e.betting.players.length).findSome? (fun off =>
          let candidate :=
            e.betting.players.getD ((si + off) % e.betting.players.length) ""
          if e.betting.foldedPlayers.contains candidate then none
          else if e.betting.allInPlayers.contains candidate then none
          else some candidate) with
        | some c => c
        | none => e.betting.players.getD si "") ∈ e.betting.players ∧
      e.betting.foldedPlayers.contains
        (match (List.range e.betting.players.length).findSome? (fun off =>
          let candidate :=
            e.betting.players.getD ((si + off) % e.betting.players.length) ""
          if e.betting.foldedPlayers.contains candidate then none
          else if e.betting.allInPlayers.contains candidate then none
          else some candidate) with
        | some c => c
        | none => e.betting.players.getD si "") = false ∧
      e.betting.allInPlayers.contains
        (match (List.range e.betting.players.length).findSome? (fun off =>
          let candidate :=
            e.betting.players.getD ((si + off) % e.betting.players.length) ""
          if e.betting.foldedPlayers.contains candidate then none
          else if e.betting.allInPlayers.contains candidate then none
          else some candidate) with
        | some c => c
        | none => e.betting.players.getD si "") = false := by
    intro si hsi
    split
    · next c heq =>
      obtain ⟨off, hmem, hfe⟩ := List.exists_of_findSome?_eq_some heq
      have hidxlt : (si + off) % e.betting.players.length <
          e.betting.players.length := Nat.mod_lt _ hlen
      dsimp only at hfe
      split at hfe
      · exact absurd hfe (by simp)
      · split at hfe
        · exact absurd hfe (by simp)
        · next hg1 hg2 =>
          injection hfe with hfe
          subst hfe
          exact ⟨mem_getD hidxlt, by simpa using hg1, by simpa using hg2⟩
    · next heq =>
      exfalso
      have hoff : (i + e.betting.players.length - si) % e.betting.players.length <
          e.betting.players.length := Nat.mod_lt _ hlen
      have hnone := findSome?_range_none heq hoff
      have hidx : (si + (i + e.betting.players.length - si) %
          e.betting.players.length) % e.betting.players.length = i := by
        rw [Nat.add_mod_mod]
        have harith : si + (i + e.betting.players.length - si) =
            i + e.betting.players.length := by omega
        rw [harith, Nat.add_mod_right, Nat.mod_eq_of_lt hi]
      have hcand : e.betting.players.getD
          ((si + (i + e.betting.players.length - si) % e.betting.players.length) %
            e.betting.players.length) "" = p := by
        rw [hidx, List.getD_eq_getElem e.betting.players "" hi]
        exact hgi
      dsimp only at hnone
      rw [hcand, hf, ha] at hnone
      simp at hnone
  exact main _ (by
    split
    · exact Nat.mod_lt _ hlen
    · exact hlen)

/-! ### Claim C1: chip conservation -/

/-- Default two-player engine used by the conservation counterexample. -/
def e2p : Eng := { players := ["p1", "p2"] }

/-- Identity stand-in for the shuffle permutation (any fixed function of
the seed works for the counterexample). -/
def shuffleId : Int → List String → List String := fun _ d => d

/-- Counterexample for C1: immediately after `Engine.new_hand` (the empty
sequence of step/payout operations), the stacks sum plus pot is 2000 — the
chips in play — while `startingStacksAtHand` sums to 1985, because the
snapshot `_starting_stacks = dict(betting.stacks)` is taken after the
blinds (5 + 10) are posted. The claimed equation is off by the posted
blinds. -/
theorem C1_chip_conservation_counterexample :
    (Eng.newHand shuffleId 0 e2p false).map
        (fun e => (sumV e.betting.stacks' + e.betting.pot,
          sumV e.startingStacksAtHand)) = .ok (2000, 1985) ∧
    (2000 : Int) ≠ 1985 := by
  constructor
  · decide
  · decide

/-- C1 (amended): for every hand started by `BettingState.startHand` (with
distinct seats, distinct stack keys, and a first actor among the seats) and
every sequence of legal step / payout / street-reset operations,
`sum(stacks) + pot` stays equal to its value right after `startHand` — that
is, `sum(startingStacksAtHand)` plus the blinds posted at hand start, since
`Engine.new_hand` snapshots `startingStacksAtHand` from the post-blind
stacks; and any successful payout leaves `pot = 0`. -/
theorem C1_chip_conservation_amended (s : BState) (players : List Seat)
    (sbP bbP fta : Seat) (sF : BState)
    (hpl : players.Nodup) (hnd : (keysOf s.stacks').Nodup)
    (hfta : fta ∈ players)
    (hops : BState.LegalOps (s.startHand players sbP bbP fta) sF) :
    (sumV sF.stacks' + sF.pot =
      sumV (s.startHand players sbP bbP fta).stacks' +
        (s.startHand players sbP bbP fta).pot) ∧
    (∀ (t t' : BState) (w : Winner) (rem : Option Seat),
      t.payout w rem = .ok t' → t'.pot = 0) ∧
    (∀ (f : Int → List String → List String) (seed : Int) (e e' : Eng)
        (ro : Bool), Eng.newHand f seed e ro = .ok e' →
      e'.startingStacksAtHand = e'.betting.stacks') := by
  refine ⟨?_, ?_, ?_⟩
  · exact (BState.legalOps_conserves hops
      (BState.startHand_WFB s players sbP bbP fta hpl hnd hfta)).2
  · intro t t' w rem hp
    simp only [BState.payout] at hp
    split at hp
    · exact absurd hp (by simp)
    · cases hp
      rfl
  · intro f seed e e' ro hnh
    simp only [Eng.newHand] at hnh
    split at hnh
    · exact absurd hnh (by simp)
    · cases hnh
      rfl

/-- Heads-up fixture after p1 calls the blind. -/
def hand2a : BState := (hand2.step ⟨.call, none⟩ "p1").1

/-- Heads-up fixture after p1 calls and p2 checks (preflop round done). -/
def hand2c : BState := (hand2a.step ⟨.check, none⟩ "p2").1

/-- Witness for the amended C1: a fresh heads-up hand followed by a call
and a check (reaching the end of the preflop round) preserves
`sum(stacks) + pot`. -/
theorem C1_witness :
    sumV hand2c.stacks' + hand2c.pot =
      sumV (BState.startHand {} ["p1", "p2"] "p1" "p2" "p1").stacks' +
        (BState.startHand {} ["p1", "p2"] "p1" "p2" "p1").pot :=
  have h1 : hand2.step ⟨.call, none⟩ "p1" = (hand2a, .ok ⟨false, false, .null⟩) := by
    decide
  have h2 : hand2a.step ⟨.check, none⟩ "p2" = (hand2c, .ok ⟨true, false, .null⟩) := by
    decide
  (C1_chip_conservation_amended {} ["p1", "p2"] "p1" "p2" "p1" hand2c
    (by decide) (by decide) (by decide)
    (BState.LegalOps.stepOp
      (BState.LegalOps.stepOp (BState.LegalOps.refl _) h1) h2)).1

/-! ### Claim C2: fold terminus -/

theorem BState.step_fold_sets_over {s : BState} {a : Action} {pid : Seat}
    {s2 : BState} {r : StepResult}
    (h : s.step a pid = (s2, .ok r)) (ha : a.action = .fold)
    (hone : (s.players.filter
        (fun p => ¬ (setInsert s.foldedPlayers pid).contains p)).length = 1) :
    r.handOver = true ∧
    s2.activePlayers = s.players.filter
        (fun p => ¬ (setInsert s.foldedPlayers pid).contains p) := by
  simp only [BState.step, ha] at h
  split at h
  · injection h with h1 h2
    exact Except.noConfusion h2
  split at h
  · injection h with h1 h2
    exact Except.noConfusion h2
  split at h
  · injection h with h1 h2
    exact Except.noConfusion h2
  split at h
  · injection h with h1 h2
    injection h2 with h2
    subst h1
    subst h2
    exact ⟨rfl, by simp [BState.activePlayers, recordAction]⟩
  · next hlen =>
    exact absurd (by simpa [BState.activePlayers, recordAction] using hone) hlen

theorem BState.payout_single {s : BState} {x : Seat} {rem : Option Seat}
    {s2 : BState} (h : s.payout (.single x) rem = .ok s2)
    (hx : x ∈ keysOf s.stacks') :
    getV s2.stacks' x = getV s.stacks' x + s.pot := by
  simp only [BState.payout, BState.payoutWinners] at h
  rw [if_neg (by simp)] at h
  injection h with h
  subst h
  show getV (if ((s.pot.emod ([x].length : Int)) ≠ 0) then _ else _) x = _
  have hm : s.pot.emod (([x].length : Nat) : Int) = 0 := by
    show s.pot % (([x].length : Nat) : Int) = 0
    simp [Int.emod_one]
  have hd : s.pot.ediv (([x].length : Nat) : Int) = s.pot := by
    show s.pot / (([x].length : Nat) : Int) = s.pot
    simp [Int.ediv_one]
  rw [if_neg (by simp only [ne_eq, not_not]; simpa using hm)]
  show getV (List.foldl (fun m p => setV m p (getV m p + s.pot.ediv ([x].length : Int)))
    s.stacks' [x]) x = _
  simp only [List.foldl_cons, List.foldl_nil]
  rw [getV_setV_self _ _ _ hx, hd]

/-- C2: when a fold leaves exactly one non-folded seat, `Engine.step` ends
the hand: the betting state is hand-over, the street becomes showdown, the
winner is the remaining seat, and that seat receives the whole pot (the pot
drops to 0). The hypothesis `hkeys` says every seat of the hand has a stack
entry, which `startHand` establishes. -/
theorem C2_fold_terminus {evalHand : List String → List String → Int} {e : Eng}
    {a : Action} {pid : Seat} {e' : Eng} {r : StepResult}
    (h : Eng.step evalHand e a pid = (e', .ok r))
    (ha : a.action = .fold)
    (hone : (e.betting.players.filter
        (fun p => ¬ (setInsert e.betting.foldedPlayers pid).contains p)).length = 1)
    (hkeys : ∀ p ∈ e.betting.players, p ∈ keysOf e.betting.stacks') :
    r.handOver = true ∧ e'.betting.handOver = true ∧ e'.betting.pot = 0 ∧
    e'.street = .showdown ∧
    ∃ w, e.betting.players.filter
        (fun p => ¬ (setInsert e.betting.foldedPlayers pid).contains p) = [w] ∧
      e'.betting.winner = .single w ∧
      getV e'.betting.stacks' w = getV e.betting.stacks' w + e.betting.pot := by
  obtain ⟨hsnd, hcases⟩ := Eng.step_cases h
  have hbs : e.betting.step a pid = ((e.betting.step a pid).1, .ok r) := by
    rw [← hsnd]
  obtain ⟨hover, hact⟩ := BState.step_fold_sets_over hbs ha hone
  have hend : Eng.endHandByFold { e with betting := (e.betting.step a pid).1 }
      r.winner = .ok e' := by
    rcases hcases with ⟨_, hend⟩ | ⟨hno, _⟩ | ⟨hno, _⟩ | ⟨hno, _⟩
    · exact hend
    · rw [hover] at hno
      exact absurd hno (by simp)
    · rw [hover] at hno
      exact absurd hno (by simp)
    · rw [hover] at hno
      exact absurd hno (by simp)
  obtain ⟨_, _, _, hpl, _, _, _, _, _, _, hrw, hoverconc, _⟩ := BState.step_ok_spec hbs
  obtain ⟨_, hst, hpot, _, w, hw, hactw, hwp⟩ := hoverconc hover
  obtain ⟨hpay, hstreet⟩ := Eng.endHandByFold_shape hend
  rw [hrw, hw] at hpay
  have hx : w ∈ keysOf ((e.betting.step a pid).1).stacks' := by
    rw [hst]
    exact hkeys w (hpl ▸ hwp)
  obtain ⟨_, _, _, _, _, hho2, hw2, hpot2⟩ := BState.payout_frame hpay
  have hgain := BState.payout_single hpay hx
  rw [hst, hpot] at hgain
  exact ⟨hover, hho2, hpot2, hstreet, w, by rw [← hact, hactw], hw2, hgain⟩

/-- Two-player engine right after `new_hand` (identity shuffle, seed 0). -/
def c2Eng : Eng :=
  match Eng.newHand shuffleId 0 e2p false with
  | .ok x => x
  | .error _ => e2p

/-- Witness for C2: in a fresh heads-up hand, p1 folding leaves only p2,
the hand ends at showdown and p2 collects the 15-chip pot (990 → 1005). -/
theorem C2_witness :
    (⟨.fold, none⟩ : Action).action = .fold ∧
    (c2Eng.betting.players.filter
        (fun p => ¬ (setInsert c2Eng.betting.foldedPlayers "p1").contains p)).length
      = 1 ∧
    getV (((Eng.step (fun _ _ => 0) c2Eng ⟨.fold, none⟩ "p1").1).betting.stacks')
        "p2" =
      getV (c2Eng.betting.stacks') "p2" + c2Eng.betting.pot := by
  have h : Eng.step (fun _ _ => 0) c2Eng ⟨.fold, none⟩ "p1" =
      ((Eng.step (fun _ _ => 0) c2Eng ⟨.fold, none⟩ "p1").1,
        .ok ⟨false, true, .single "p2"⟩) := by decide
  obtain ⟨hover, hho, hpot, hstreet, w, hw, hwin, hgain⟩ :=
    C2_fold_terminus h rfl (by decide) (by decide)
  have hw2 : w = "p2" := by
    have hlists : (["p2"] : List Seat) = [w] := by
      rw [← hw]
      decide
    injection hlists with h1 _
    exact h1.symm
  refine ⟨rfl, by decide, ?_⟩
  rw [← hw2]
  exact hgain

/-! ### Claim C7: current-actor eligibility -/

/-- Heads-up engine after p1 moves all-in (raise to 1000). -/
def c7Shove : Eng := (Eng.step (fun _ _ => 0) c2Eng ⟨.raise, some 1000⟩ "p1").1

/-- Engine after p2 calls the all-in: both seats are all-in and the engine
auto-deals the flop. -/
def c7Runout : Eng := (Eng.step (fun _ _ => 0) c7Shove ⟨.call, none⟩ "p2").1

/-- Counterexample for C7: after p2 calls p1's all-in, `Engine.step`
completes (round complete, hand not over) and advances to the flop, yet the
new `currentPlayer` is the all-in seat p2, which is in `allInPlayers` and
not in the (empty) `pendingPlayers` — the claimed eligibility invariant
fails on the all-in runout. -/
theorem C7_current_actor_counterexample :
    (Eng.step (fun _ _ => 0) c7Shove ⟨.call, none⟩ "p2").2 =
      .ok ⟨true, false, .null⟩ ∧
    c7Runout.street = .flop ∧
    c7Runout.betting.currentPlayer = some "p2" ∧
    c7Runout.betting.pendingPlayers = [] ∧
    c7Runout.betting.allInPlayers.contains "p2" = true := by
  decide

/-- C7 (amended): after a completed `Engine.step`, the eligibility
invariant on `currentPlayer` holds provided at least one seat of the hand
is neither folded nor all-in; the unguarded claim fails when every
remaining seat is all-in (see the counterexample). -/
theorem C7_current_actor_amended {evalHand : List String → List String → Int}
    {e : Eng} {a : Action} {pid : Seat} {e' : Eng} {r : StepResult}
    (h : Eng.step evalHand e a pid = (e', .ok r))
    (hex : ∃ q ∈ e'.betting.players, q ∉ e'.betting.foldedPlayers ∧
      q ∉ e'.betting.allInPlayers) :
    ∀ c, e'.betting.currentPlayer = some c →
      c ∈ e'.betting.pendingPlayers ∧ c ∉ e'.betting.foldedPlayers ∧
      c ∉ e'.betting.allInPlayers ∧ c ∈ e'.betting.players := by
  obtain ⟨hsnd, hcases⟩ := Eng.step_cases h
  have hbs : e.betting.step a pid = ((e.betting.step a pid).1, .ok r) := by
    rw [← hsnd]
  obtain ⟨_, _, _, _, _, _, _, _, hcur, _, _, hoverconc, hrcconc⟩ :=
    BState.step_ok_spec hbs
  intro c hc
  rcases hcases with ⟨hov, hend⟩ | ⟨hno, hrc2, e2, he2b, he'⟩ |
    ⟨hno, hrc2, hres⟩ | ⟨hno, he'⟩
  · obtain ⟨hpay, _⟩ := Eng.endHandByFold_shape hend
    obtain ⟨_, hcp, _, _, _, _, _, _⟩ := BState.payout_frame hpay
    obtain ⟨_, _, _, hcpnone, _⟩ := hoverconc hov
    rw [hcp] at hc
    rw [show ({ e with betting := (e.betting.step a pid).1 } : Eng).betting =
      (e.betting.step a pid).1 from rfl, hcpnone] at hc
    exact absurd hc (by simp)
  · subst he'
    simp only [BState.startNewRound] at hc
    injection hc with hc
    subst hc
    obtain ⟨q, hq, hqf, hqa⟩ := hex
    simp only [BState.startNewRound] at hq hqf hqa
    have hne : e2.betting.players ≠ [] := by
      rw [he2b]
      intro hnil
      rw [hnil] at hq
      exact absurd hq (by simp)
    have hp : q ∈ e2.betting.players := by
      rw [he2b]
      exact hq
    have hf : e2.betting.foldedPlayers.contains q = false := by
      rw [he2b]
      exact contains_eq_false_iff.mpr hqf
    have ha2 : e2.betting.allInPlayers.contains q = false := by
      rw [he2b]
      exact contains_eq_false_iff.mpr hqa
    obtain ⟨hm, hfta, hata⟩ := Eng.firstToActPostflop_eligible hne hp hf ha2
    rw [he2b] at hm hfta hata
    have hfta' : Eng.firstToActPostflop e2 ∉
        ((e.betting.step a pid).1).foldedPlayers := contains_eq_false_iff.mp hfta
    have hata' : Eng.firstToActPostflop e2 ∉
        ((e.betting.step a pid).1).allInPlayers := contains_eq_false_iff.mp hata
    refine ⟨?_, ?_, ?_, ?_⟩
    · show Eng.firstToActPostflop e2 ∈
        setDiff ((e.betting.step a pid).1).activePlayers
          ((e.betting.step a pid).1).allInPlayers
      refine BState.mem_setDiff.mpr ⟨?_, hata'⟩
      simp only [BState.activePlayers, List.mem_filter]
      exact ⟨hm, by simpa using hfta'⟩
    · exact hfta'
    · exact hata'
    · exact hm
  · obtain ⟨w, hpay⟩ := Eng.resolveShowdown_shape hres
    obtain ⟨_, hcp, _, _, _, _, _, _⟩ := BState.payout_frame hpay
    have hcpnone := hrcconc hrc2
    rw [hcp] at hc
    rw [show ({ e with betting := (e.betting.step a pid).1 } : Eng).betting =
      (e.betting.step a pid).1 from rfl, hcpnone] at hc
    exact absurd hc (by simp)
  · subst he'
    obtain ⟨h1, h2, h3, h4⟩ := hcur c hc
    exact ⟨h4, h2, h3, h1⟩

/-- Heads-up engine after p1 limps (calls the big blind). -/
def c7Limp : Eng := (Eng.step (fun _ _ => 0) c2Eng ⟨.call, none⟩ "p1").1

/-- Witness for the amended C7: after p1's call, both seats are still live,
and the new current player p2 is pending, unfolded, not all-in and seated. -/
theorem C7_witness :
    "p2" ∈ c7Limp.betting.pendingPlayers ∧
    "p2" ∉ c7Limp.betting.foldedPlayers ∧
    "p2" ∉ c7Limp.betting.allInPlayers ∧
    "p2" ∈ c7Limp.betting.players :=
  have h : Eng.step (fun _ _ => 0) c2Eng ⟨.call, none⟩ "p1" =
      (c7Limp, .ok ⟨false, false, .null⟩) := by decide
  C7_current_actor_amended h ⟨"p1", by decide, by decide, by decide⟩ "p2" (by decide)

/-! ### Claim C5: projection redaction -/

/-- C5: outside showdown with the hand still running, the public projection
reveals no hands (`revealedHands = none`) and carries hole cards only in
`hand`, which is exactly the viewer's own lookup; at showdown or once the
hand is over, every non-folded seat's complete (two-card) hole cards appear
in `revealedHands`. -/
theorem C5_projection_redaction (e : Eng) (viewer : Option Seat)
    (historyLimit : Nat) (sessionId : Option String) :
    (e.street ≠ .showdown → e.betting.handOver = false →
      (e.toPublicState viewer historyLimit sessionId).revealedHands = none ∧
      (e.toPublicState viewer historyLimit sessionId).hand =
        (match viewer with
          | some v => e.holeCards.lookup v
          | none => none)) ∧
    ((e.street = .showdown ∨ e.betting.handOver = true) →
      ∀ p cards, (p, cards) ∈ e.holeCards → p ∉ e.betting.foldedPlayers →
        cards.length = 2 →
        (p, cards) ∈
          ((e.toPublicState viewer historyLimit sessionId).revealedHands.getD [])) := by
  constructor
  · intro hst hho
    simp only [Eng.toPublicState]
    rw [if_neg (by simp [hst, hho])]
    exact ⟨rfl, trivial⟩
  · intro hsd p cards hmem hnf hlen
    simp only [Eng.toPublicState]
    rw [if_pos (by simpa using hsd)]
    simp only [Option.getD_some]
    exact List.mem_filter.mpr ⟨hmem, by simp [hlen]⟩

/-- Heads-up engine after p1 open-folds: the hand is over at showdown. -/
def c5End : Eng := (Eng.step (fun _ _ => 0) c2Eng ⟨.fold, none⟩ "p1").1

/-- Witness for C5: preflop, p2's projection hides all hands except its own
lookup; after the hand ends, the non-folded seat p2's two cards are listed
in `revealedHands`. -/
theorem C5_witness :
    ((c2Eng.toPublicState (some "p2") 0 none).revealedHands = none ∧
      (c2Eng.toPublicState (some "p2") 0 none).hand = c2Eng.holeCards.lookup "p2") ∧
    ("p2", ["Ad", "Ac"]) ∈
      ((c5End.toPublicState (some "p1") 0 none).revealedHands.getD []) :=
  ⟨(C5_projection_redaction c2Eng (some "p2") 0 none).1 (by decide) (by decide),
    (C5_projection_redaction c5End (some "p1") 0 none).2 (by decide) "p2"
      ["Ad", "Ac"] (by decide) (by decide) (by decide)⟩

/-! ### Claim C9: join idempotence and seat assignment -/

theorem find?_first_split {l : List Seat} {p : Seat → Bool} {x : Seat}
    (h : l.find? p = some x) :
    ∃ l1 l2, l = l1 ++ x :: l2 ∧ ∀ y ∈ l1, p y = false := by
  induction l with
  | nil => simp at h
  | cons a t ih =>
    cases hpa : p a with
    | true =>
      rw [List.find?_cons_of_pos _ hpa] at h
      injection h with h
      subst h
      exact ⟨[], t, rfl, by simp⟩
    | false =>
      rw [List.find?_cons_of_neg _ (by simp [hpa])] at h
      obtain ⟨l1, l2, heq, hall⟩ := ih h
      refine ⟨a :: l1, l2, by rw [heq]; rfl, ?_⟩
      intro y hy
      rcases List.mem_cons.mp hy with rfl | hy2
      · exact hpa
      · exact hall y hy2

/-- C9: `join_multiplayer_table` rejects non-multiplayer sessions and ended
tables; a truthy user key that already owns a seat gets that same seat back
with the session untouched (idempotent reconnect); otherwise the first seat
of `SEAT_ORDER` not yet joined is assigned (every earlier seat is already
taken) and appended to `joinedPlayers`; when every seat is joined the call
fails with `Table is full`. -/
theorem C9_join_idempotence (sess : SessionData) (userKey : Option String) :
    (sess.mode ≠ "multi" →
      joinMultiplayerTable sess userKey = .error "Not a multiplayer table") ∧
    (sess.mode = "multi" → sess.tableEnded = true →
      joinMultiplayerTable sess userKey = .error "Table has ended") ∧
    (sess.mode = "multi" → sess.tableEnded = false →
      (∀ seat key, optTruthy userKey = true →
        sess.seatOwners.find? (fun so => so.2 == userKey.getD "") =
          some (seat, key) →
        joinMultiplayerTable sess userKey = .ok (sess, seat)) ∧
      ((optTruthy userKey = true →
          sess.seatOwners.find? (fun so => so.2 == userKey.getD "") = none) →
        ((∃ s ∈ SEAT_ORDER, s ∉ sess.joinedPlayers) →
          ∃ seat sess2, joinMultiplayerTable sess userKey = .ok (sess2, seat) ∧
            seat ∉ sess.joinedPlayers ∧
            (∃ l1 l2, SEAT_ORDER = l1 ++ seat :: l2 ∧
              ∀ y ∈ l1, y ∈ sess.joinedPlayers) ∧
            sess2.joinedPlayers = sess.joinedPlayers ++ [seat]) ∧
        ((∀ s ∈ SEAT_ORDER, s ∈ sess.joinedPlayers) →
          joinMultiplayerTable sess userKey = .error "Table is full"))) := by
  refine ⟨?_, ?_, ?_⟩
  · intro hm
    simp only [joinMultiplayerTable]
    rw [if_pos hm]
  · intro hm hend
    simp only [joinMultiplayerTable]
    rw [if_neg (by simp [hm]), if_pos hend]
  · intro hm hend
    constructor
    · intro seat key htr hfind
      simp only [joinMultiplayerTable]
      rw [if_neg (by simp [hm]), if_neg (by simp [hend]), if_pos htr, hfind]
    · intro hnone
      constructor
      · intro hex
        have hsome :
            (SEAT_ORDER.find? (fun s => ¬ sess.joinedPlayers.contains s)).isSome := by
          rw [List.find?_isSome]
          obtain ⟨s, hs, hns⟩ := hex
          exact ⟨s, hs, by simpa using hns⟩
        obtain ⟨seat, hfind⟩ := Option.isSome_iff_exists.mp hsome
        obtain ⟨l1, l2, hsplit, hallfail⟩ := find?_first_split hfind
        have hpseat := List.find?_some hfind
        refine ⟨seat,
          { sess with
              joinedPlayers := sess.joinedPlayers ++ [seat]
              seatOwners :=
                if optTruthy userKey then
                  dictSet sess.seatOwners seat (userKey.getD "")
                else sess.seatOwners },
          ?_, by simpa using hpseat, ⟨l1, l2, hsplit, ?_⟩, rfl⟩
        · simp only [joinMultiplayerTable]
          rw [if_neg (by simp [hm]), if_neg (by simp [hend])]
          by_cases htr : optTruthy userKey = true
          · rw [if_pos htr, hnone htr, hfind]
          · rw [if_neg htr, hfind]
        · intro y hy
          have := hallfail y hy
          simpa using this
      · intro hfull
        have hfnone :
            SEAT_ORDER.find? (fun s => ¬ sess.joinedPlayers.contains s) = none := by
          rw [List.find?_eq_none]
          intro x hx
          simp [hfull x hx]
        simp only [joinMultiplayerTable]
        rw [if_neg (by simp [hm]), if_neg (by simp [hend])]
        by_cases htr : optTruthy userKey = true
        · rw [if_pos htr, hnone htr, hfnone]
        · rw [if_neg htr, hfnone]

/-- A two-member multiplayer table: p1 joined and owned by "alice". -/
def c9Sess : SessionData :=
  { sessionId := "TBL-1", mode := "multi", joinedPlayers := ["p1"],
    seatOwners := [("p1", "alice")] }

/-- A full multiplayer table (all five seats joined). -/
def c9Full : SessionData :=
  { sessionId := "TBL-2", mode := "multi", joinedPlayers := SEAT_ORDER }

/-- A single-player session. -/
def c9Single : SessionData := { sessionId := "S-1" }

/-- Witness for C9: "alice" reconnects onto her own seat with the session
unchanged; a full table rejects a newcomer; a single-player session rejects
the join; "bob" gets the lowest free seat, which is appended to
`joinedPlayers`. -/
theorem C9_witness :
    joinMultiplayerTable c9Sess (some "alice") = .ok (c9Sess, "p1") ∧
    joinMultiplayerTable c9Full (some "zoe") = .error "Table is full" ∧
    joinMultiplayerTable c9Single none = .error "Not a multiplayer table" ∧
    (∃ seat sess2, joinMultiplayerTable c9Sess (some "bob") = .ok (sess2, seat) ∧
      seat ∉ c9Sess.joinedPlayers ∧
      (∃ l1 l2, SEAT_ORDER = l1 ++ seat :: l2 ∧
        ∀ y ∈ l1, y ∈ c9Sess.joinedPlayers) ∧
      sess2.joinedPlayers = c9Sess.joinedPlayers ++ [seat]) :=
  ⟨((C9_join_idempotence c9Sess (some "alice")).2.2 rfl rfl).1 "p1" "alice"
      (by decide) (by decide),
    (((C9_join_idempotence c9Full (some "zoe")).2.2 rfl rfl).2
      (fun _ => by decide)).2 (by decide),
    (C9_join_idempotence c9Single none).1 (by decide),
    (((C9_join_idempotence c9Sess (some "bob")).2.2 rfl rfl).2
      (fun _ => by decide)).1 ⟨"p2", by decide, by decide⟩⟩

/-! ### Claim C10: deal determinism -/

/-- An engine with the deal-irrelevant fields replaced: the previous deck,
board, hole cards, street, pending events and RNG state. -/
def withDealScrambled (e : Eng) (d b : List String)
    (hc : List (Seat × List String)) (st : Street) (pe : List EventType)
    (rs : Int) : Eng :=
  { e with
    deck := d
    board := b
    holeCards := hc
    street := st
    pendingEvents := pe
    rngState := rs }

/-- C10: `Engine.new_hand` builds a fresh deck and shuffles it with
`random.Random(seed)` — embedded as the pure `shuffleFn seed buildDeck` —
so from equal engine states a fixed seed reproduces the identical hand
(deck order, hole cards, board, street, and therefore the identical
subsequent flop, turn and river deals), and the dealt cards do not depend
on the pre-hand deck, board, hole cards, street, pending events or previous
RNG state: the variation comes from the seed (and the seats in play)
alone. -/
theorem C10_deal_determinism (f : Int → List String → List String) (seed : Int)
    (e1 e2 : Eng) (ro : Bool) (h : e1 = e2) (d b : List String)
    (hc : List (Seat × List String)) (st : Street) (pe : List EventType)
    (rs : Int) :
    Eng.newHand f seed e1 ro = Eng.newHand f seed e2 ro ∧
    Eng.dealFlop e1 = Eng.dealFlop e2 ∧
    Eng.dealTurn e1 = Eng.dealTurn e2 ∧
    Eng.dealRiver e1 = Eng.dealRiver e2 ∧
    (Eng.newHand f seed (withDealScrambled e1 d b hc st pe rs) ro).map
      (fun x => (x.deck, x.holeCards, x.board, x.street)) =
    (Eng.newHand f seed e1 ro).map
      (fun x => (x.deck, x.holeCards, x.board, x.street)) := by
  subst h
  refine ⟨rfl, rfl, rfl, rfl, ?_⟩
  simp only [withDealScrambled, Eng.newHand]
  by_cases hp : e1.players.length < 2 ∨ e1.players.length > 5
  · rw [if_pos hp, if_pos hp]
  · rw [if_neg hp, if_neg hp]
    rfl

/-- Witness for C10 at a concrete two-player engine: seed 0 reproduces the
hand, and scrambling the deal-irrelevant fields (stale deck, board, hole
cards, street, events, RNG state) leaves the dealt cards unchanged. -/
theorem C10_witness :
    Eng.newHand shuffleId 0 e2p false = Eng.newHand shuffleId 0 e2p false ∧
    Eng.dealFlop e2p = Eng.dealFlop e2p ∧
    Eng.dealTurn e2p = Eng.dealTurn e2p ∧
    Eng.dealRiver e2p = Eng.dealRiver e2p ∧
    (Eng.newHand shuffleId 0
        (withDealScrambled e2p ["2c"] ["2d"] [("p1", ["2h"])] .river
          [.handEnd] 42) false).map
      (fun x => (x.deck, x.holeCards, x.board, x.street)) =
    (Eng.newHand shuffleId 0 e2p false).map
      (fun x => (x.deck, x.holeCards, x.board, x.street)) :=
  C10_deal_determinism shuffleId 0 e2p e2p false rfl ["2c"] ["2d"]
    [("p1", ["2h"])] .river [.handEnd] 42

end Rivermind
